import Mathlib

/-!
# gen-copier: the copier generator

A shallow embedding of `internal/copier-generate/copier-generate.go`.

* Go strings are Lean `String`s; the string functions of package `strings` that the
  program calls are defined on the character lists of their arguments.
* The part of `go/ast` that `getFieldInfo` inspects is the inductive type `Expr`
  together with the structures `Field` and `StructType`.
* A run-time panic (a failed unchecked type assertion) is the result `none`.
* A Go result `(string, error)` is a pair `String × Option String`; the second
  component is the message of the error, `none` standing for `nil`.
* A Go `map[string]V` is a list of key/value pairs with pairwise distinct keys; the
  order in which `range` visits a map is not specified by the language, so the
  generator takes the order as a parameter of type `RangeOrder`.
* Calls to package `log` only report progress and are not part of the embedding.
-/

namespace CopierGenerate

/-! ## Package `strings` -/

/-- Characters of `strings.Split(s, sep)` for a separator of one character:
the pieces of `s` between the occurrences of `sep`. -/
def splitChars (sep : Char) : List Char → List (List Char)
  | [] => [[]]
  | c :: cs =>
    if c = sep then [] :: splitChars sep cs
    else
      match splitChars sep cs with
      | [] => [[c]]
      | p :: ps => (c :: p) :: ps

/-- Go `strings.Split(s, sep)` where `sep` is a single character (the program only
splits at `" "`). -/
def Split (s : String) (sep : Char) : List String :=
  (splitChars sep s.data).map String.mk

/-- Go `strings.HasPrefix(s, p)`. -/
def HasPrefix (s p : String) : Bool :=
  p.data.isPrefixOf s.data

/-- Go `strings.TrimPrefix(s, p)`: `s` without the leading `p`, or `s` itself when
`s` does not start with `p`. -/
def TrimPrefix (s p : String) : String :=
  if HasPrefix s p then String.mk (s.data.drop p.data.length) else s

/-- Go `strings.Trim(s, cutset)`: `s` with all leading and trailing characters
contained in `cutset` removed. -/
def Trim (s cutset : String) : String :=
  String.mk
    (((s.data.dropWhile (fun c => cutset.data.contains c)).reverse.dropWhile
      (fun c => cutset.data.contains c)).reverse)

/-- Go `strings.Contains(text, sub)` as a proposition: `sub` occurs in `text` as a
contiguous block of characters. -/
def Contains (text sub : String) : Prop :=
  sub.data <:+: text.data

instance (text sub : String) : Decidable (Contains text sub) :=
  inferInstanceAs (Decidable (sub.data <:+: text.data))

/-! ## Package `go/ast` -/

/-- The type expressions of `go/ast` that can stand as the type of a struct field.
`SelectorExpr` is a qualified identifier `X.Sel`, whose `X` is a package identifier;
`ArrayType` has `Len = none` for a slice `[]Elt` and the text of the length for an
array `[Len]Elt`; the contents of the last four shapes are never inspected. -/
inductive Expr where
  | Ident (Name : String)
  | SelectorExpr (X : String) (Sel : String)
  | ArrayType (Len : Option String) (Elt : Expr)
  | StarExpr (X : Expr)
  | MapType (Key : Expr) (Value : Expr)
  | IndexExpr (X : Expr) (Index : Expr)
  | ChanType (Value : Expr)
  | StructType
  | InterfaceType
  | FuncType
  deriving DecidableEq, Repr

/-- Go `ast.Field`: one field declaration of a struct. `Names` is empty for an
anonymous (embedded) field and has several entries for `A, B int`; `Tag` is the
value of the tag literal with its delimiters, when the field has a tag. -/
structure Field where
  Names : List String
  Typ : Expr
  Tag : Option String
  deriving DecidableEq, Repr

/-- Go `ast.StructType`, reduced to `Fields.List`. -/
structure StructType where
  Fields : List Field
  deriving DecidableEq, Repr

/-! ## Go maps -/

/-- Go `m[k]` with the comma-ok form: the value stored under `k`, if any. -/
def mapGet {V : Type} : List (String × V) → String → Option V
  | [], _ => none
  | (k', v) :: rest, k => if k' = k then some v else mapGet rest k

/-- Go `m[k] = v`: replaces the value of an existing key, adds the key otherwise. -/
def mapSet {V : Type} : List (String × V) → String → V → List (String × V)
  | [], k, v => [(k, v)]
  | (k', v') :: rest, k, v =>
    if k' = k then (k, v) :: rest else (k', v') :: mapSet rest k v

/-- An iteration order of `for k, v := range m`: the entries of the map, each once,
in an order the language leaves unspecified. -/
structure RangeOrder where
  range : List (String × String) → List (String × String)
  perm : ∀ m, (range m).Perm m

/-- The iteration order that visits the entries in the order the keys were added. -/
def insertionOrder : RangeOrder where
  range := fun m => m
  perm := fun m => List.Perm.refl m

/-- The iteration order that visits the entries in the reverse of the order the keys
were added. -/
def reverseOrder : RangeOrder where
  range := fun m => m.reverse
  perm := fun m => List.reverse_perm m

/-! ## The program -/

/-- Go `FieldInfo`; the field `Type` of the program is `Typ` here. -/
structure FieldInfo where
  Name : String
  Typ : String
  Tag : String
  deriving DecidableEq, Repr

/-- Go `getFieldInfo`. The name is the first of `field.Names`; the type is rendered
for an identifier, a qualified identifier and an array type, and stays empty for
every other shape; the tag is the tag literal without surrounding backquotes.
The assertion `expr.Elt.(*ast.Ident)` is unchecked: for an array type whose element
is not an identifier the function panics (`none`). -/
def getFieldInfo (field : Field) : Option FieldInfo :=
  let Name :=
    match field.Names with
    | [] => ""
    | n :: _ => n
  let Tag :=
    match field.Tag with
    | none => ""
    | some v => Trim v "`"
  match field.Typ with
  | Expr.Ident name => some { Name := Name, Typ := name, Tag := Tag }
  | Expr.SelectorExpr X Sel => some { Name := Name, Typ := X ++ "." ++ Sel, Tag := Tag }
  | Expr.ArrayType _ (Expr.Ident name) => some { Name := Name, Typ := "[]" ++ name, Tag := Tag }
  | Expr.ArrayType _ _ => none
  | _ => some { Name := Name, Typ := "", Tag := Tag }

/-- The loop over `parts` in `extractTagValue`: the first part that starts with
`key:` decides the result. -/
def extractFromParts (key : String) : List String → String
  | [] => ""
  | part :: parts =>
    if HasPrefix part (key ++ ":") then Trim (TrimPrefix part (key ++ ":")) "\""
    else extractFromParts key parts

/-- Go `extractTagValue`. -/
def extractTagValue (tag key : String) : String :=
  if tag = "" then ""
  else extractFromParts key (Split tag ' ')

/-- First loop of `GenerateCopier`: the index `targetFields` of the target type, from
field name to field info; anonymous fields are left out, a later field replaces an
earlier one of the same name. -/
def collectTargetFields :
    List Field → List (String × FieldInfo) → Option (List (String × FieldInfo))
  | [], targetFields => some targetFields
  | field :: rest, targetFields =>
    match getFieldInfo field with
    | none => none
    | some info =>
      if info.Name ≠ "" then collectTargetFields rest (mapSet targetFields info.Name info)
      else collectTargetFields rest targetFields

/-- The message of the error returned for a directive whose target field is missing. -/
def notFoundError (tagValue targetTypeName : String) : String :=
  "target field " ++ tagValue ++ " not found in type " ++ targetTypeName

/-- The message of the error returned for a directive whose target field has another
type. -/
def typeMismatchError (name type tagValue targetType : String) : String :=
  "type mismatch: source field " ++ name ++ " (" ++ type ++ ") and target field " ++
    tagValue ++ " (" ++ targetType ++ ") have different types"

/-- Second loop of `GenerateCopier` (tagged fields). The result is `none` for a panic,
`Except.error msg` when the loop returns the error `msg`, and `Except.ok copyMap`
when the loop runs to its end. -/
def processTagged (targetTypeName : String) (targetFields : List (String × FieldInfo)) :
    List Field → List (String × String) → Option (Except String (List (String × String)))
  | [], copyMap => some (Except.ok copyMap)
  | field :: rest, copyMap =>
    match getFieldInfo field with
    | none => none
    | some info =>
      if info.Name = "" then processTagged targetTypeName targetFields rest copyMap
      else
        let tagValue := extractTagValue info.Tag "gen-copier"
        if tagValue ≠ "" then
          match mapGet targetFields tagValue with
          | none => some (Except.error (notFoundError tagValue targetTypeName))
          | some targetInfo =>
            if info.Typ ≠ targetInfo.Typ then
              some (Except.error
                (typeMismatchError info.Name info.Typ tagValue targetInfo.Typ))
            else
              processTagged targetTypeName targetFields rest
                (mapSet copyMap info.Name tagValue)
        else processTagged targetTypeName targetFields rest copyMap

/-- Third loop of `GenerateCopier` (untagged fields with matching names). -/
def processUntagged (targetFields : List (String × FieldInfo)) :
    List Field → List (String × String) → Option (List (String × String))
  | [], copyMap => some copyMap
  | field :: rest, copyMap =>
    match getFieldInfo field with
    | none => none
    | some info =>
      if info.Name = "" then processUntagged targetFields rest copyMap
      else if (mapGet copyMap info.Name).isSome then
        processUntagged targetFields rest copyMap
      else
        match mapGet targetFields info.Name with
        | some targetInfo =>
          if info.Typ = targetInfo.Typ then
            processUntagged targetFields rest (mapSet copyMap info.Name info.Name)
          else processUntagged targetFields rest copyMap
        | none => processUntagged targetFields rest copyMap

/-- The line written for one entry `sourceField ↦ targetField` of `copyMap`. -/
def assignmentLine (entry : String × String) : String :=
  "    target." ++ entry.2 ++ " = source." ++ entry.1 ++ "\n"

/-- The first line of the generated function. -/
def headerLine (sourceTypeShort targetTypeName : String) : String :=
  "func (source *" ++ sourceTypeShort ++ ") CopyTo(target *" ++ targetTypeName ++ ") \x7b\n"

/-- Go `GenerateCopier`, for the iteration order `ord` of the final `range copyMap`.
`none` is a panic; `some (text, err)` is the returned pair. -/
def GenerateCopier (ord : RangeOrder) (sourceTypeName : String) (sourceType : StructType)
    (targetTypeName : String) (targetType : StructType) : Option (String × Option String) :=
  match collectTargetFields targetType.Fields [] with
  | none => none
  | some targetFields =>
    match processTagged targetTypeName targetFields sourceType.Fields [] with
    | none => none
    | some (Except.error err) => some ("", some err)
    | some (Except.ok copyMap) =>
      match processUntagged targetFields sourceType.Fields copyMap with
      | none => none
      | some copyMap =>
        let sourceTypeShort := TrimPrefix sourceTypeName "packageA."
        let builder := headerLine sourceTypeShort targetTypeName
        let builder := (ord.range copyMap).foldl (fun b entry => b ++ assignmentLine entry) builder
        some (builder ++ "\x7d\n", none)

/-! ## Vocabulary of the statements -/

/-- The directive of a field: the value of the key `gen-copier` in its tag (empty when
the field has no directive). -/
def directive (info : FieldInfo) : String :=
  extractTagValue info.Tag "gen-copier"

/-- The text of a generated function with the given assignment entries, in order. -/
def copierText (sourceTypeShort targetTypeName : String) (entries : List (String × String)) :
    String :=
  headerLine sourceTypeShort targetTypeName ++ String.join (entries.map assignmentLine) ++ "\x7d\n"

/-- The name under which the generator knows a field declaration: the first of its
names, the empty string for an anonymous field. -/
def fieldName (field : Field) : String :=
  match field.Names with
  | [] => ""
  | n :: _ => n

/-- The names of the named fields of a declaration list, in declaration order. -/
def namedFieldNames (fields : List Field) : List String :=
  (fields.map fieldName).filter (fun n => n ≠ "")

/-- The field `info` has no directive, or its directive names a field of the target
index with the same type signature. -/
def directiveValid (targetFields : List (String × FieldInfo)) (info : FieldInfo) : Prop :=
  info.Name = "" ∨ directive info = "" ∨
    (mapGet targetFields (directive info)).map (fun t => t.Typ) = some info.Typ

instance (targetFields : List (String × FieldInfo)) (info : FieldInfo) :
    Decidable (directiveValid targetFields info) :=
  inferInstanceAs (Decidable (_ ∨ _ ∨ _))

/-- The type shapes for which `getFieldInfo` renders no type signature: pointer, map,
generic instantiation, channel, inline struct, inline interface and function type. -/
def unsupportedShape : Expr → Prop
  | Expr.StarExpr _ => True
  | Expr.MapType _ _ => True
  | Expr.IndexExpr _ _ => True
  | Expr.ChanType _ => True
  | Expr.StructType => True
  | Expr.InterfaceType => True
  | Expr.FuncType => True
  | _ => False

instance (e : Expr) : Decidable (unsupportedShape e) := by
  cases e <;> simp only [unsupportedShape] <;> infer_instance

/-! ## Example declarations -/

/-- The source of the example of the specification:
`struct { ID int; Name string }` with the tag `gen-copier:"Identifier"` on `ID`. -/
def specSource : StructType :=
  { Fields := [
      { Names := ["ID"], Typ := Expr.Ident "int",
        Tag := some "`json:\"id\" gen-copier:\"Identifier\"`" },
      { Names := ["Name"], Typ := Expr.Ident "string", Tag := none }] }

/-- The target of the example of the specification:
`struct { Identifier int; Name string }`. -/
def specTarget : StructType :=
  { Fields := [
      { Names := ["Identifier"], Typ := Expr.Ident "int", Tag := none },
      { Names := ["Name"], Typ := Expr.Ident "string", Tag := none }] }

/-- A source that declares the name `N` twice, the second time with a directive:
`struct { N int; N int }` with the tag `gen-copier:"M"` on the second field. -/
def twiceTaggedSource : StructType :=
  { Fields := [
      { Names := ["N"], Typ := Expr.Ident "int", Tag := none },
      { Names := ["N"], Typ := Expr.Ident "int", Tag := some "`gen-copier:\"M\"`" }] }

/-- The target `struct { N int; M int }`. -/
def twoIntTarget : StructType :=
  { Fields := [
      { Names := ["N"], Typ := Expr.Ident "int", Tag := none },
      { Names := ["M"], Typ := Expr.Ident "int", Tag := none }] }

/-- The source `struct { N int }`. -/
def oneIntSource : StructType :=
  { Fields := [{ Names := ["N"], Typ := Expr.Ident "int", Tag := none }] }

/-- A target that declares the name `N` twice: `struct { N int; N string }`. -/
def twiceDeclaredTarget : StructType :=
  { Fields := [
      { Names := ["N"], Typ := Expr.Ident "int", Tag := none },
      { Names := ["N"], Typ := Expr.Ident "string", Tag := none }] }

/-- The source `struct { A string; Name string }` with the tag `gen-copier:"Name"`
on `A`. -/
def aliasSource : StructType :=
  { Fields := [
      { Names := ["A"], Typ := Expr.Ident "string", Tag := some "`gen-copier:\"Name\"`" },
      { Names := ["Name"], Typ := Expr.Ident "string", Tag := none }] }

/-- The target `struct { Name string }`. -/
def nameTarget : StructType :=
  { Fields := [{ Names := ["Name"], Typ := Expr.Ident "string", Tag := none }] }

/-- The source `struct { Age int }` with the tag `gen-copier:"Years"` on `Age`. -/
def ageSource : StructType :=
  { Fields := [
      { Names := ["Age"], Typ := Expr.Ident "int", Tag := some "`gen-copier:\"Years\"`" }] }

/-- The target `struct { Name string; Tags []*string }`. -/
def pointerSliceTarget : StructType :=
  { Fields := [
      { Names := ["Name"], Typ := Expr.Ident "string", Tag := none },
      { Names := ["Tags"], Typ := Expr.ArrayType none (Expr.StarExpr (Expr.Ident "string")),
        Tag := none }] }

/-- The target `struct { Years string; Tags []*string }`. -/
def yearsPointerSliceTarget : StructType :=
  { Fields := [
      { Names := ["Years"], Typ := Expr.Ident "string", Tag := none },
      { Names := ["Tags"], Typ := Expr.ArrayType none (Expr.StarExpr (Expr.Ident "string")),
        Tag := none }] }

/-- The target `struct { Years string }`. -/
def yearsStringTarget : StructType :=
  { Fields := [{ Names := ["Years"], Typ := Expr.Ident "string", Tag := none }] }

/-- A source that declares the name `N` twice without a directive:
`struct { N int; N string }`. -/
def twiceDeclaredSource : StructType :=
  { Fields := [
      { Names := ["N"], Typ := Expr.Ident "int", Tag := none },
      { Names := ["N"], Typ := Expr.Ident "string", Tag := none }] }

/-- The target `struct { N string }`. -/
def oneStringTarget : StructType :=
  { Fields := [{ Names := ["N"], Typ := Expr.Ident "string", Tag := none }] }

/-- The source `struct { N int; Other bool }`. -/
def mismatchSource : StructType :=
  { Fields := [
      { Names := ["N"], Typ := Expr.Ident "int", Tag := none },
      { Names := ["Other"], Typ := Expr.Ident "bool", Tag := none }] }

/-- The source `struct { Name string; Tags []*string }`, without any directive. -/
def pointerSliceSource : StructType :=
  { Fields := [
      { Names := ["Name"], Typ := Expr.Ident "string", Tag := none },
      { Names := ["Tags"], Typ := Expr.ArrayType none (Expr.StarExpr (Expr.Ident "string")),
        Tag := none }] }

/-- The source `struct { P *int }`. -/
def pointerSource : StructType :=
  { Fields := [{ Names := ["P"], Typ := Expr.StarExpr (Expr.Ident "int"), Tag := none }] }

/-- The target `struct { P map[string]int }`. -/
def mapTarget : StructType :=
  { Fields := [
      { Names := ["P"], Typ := Expr.MapType (Expr.Ident "string") (Expr.Ident "int"),
        Tag := none }] }

/-- The declaration `struct { A int; B int }`. -/
def twoFields : StructType :=
  { Fields := [
      { Names := ["A"], Typ := Expr.Ident "int", Tag := none },
      { Names := ["B"], Typ := Expr.Ident "int", Tag := none }] }

/-- The target `struct { N string; Other bool }`. -/
def mismatchTarget : StructType :=
  { Fields := [
      { Names := ["N"], Typ := Expr.Ident "string", Tag := none },
      { Names := ["Other"], Typ := Expr.Ident "bool", Tag := none }] }

/-! ## Embedded fields, tags and further example declarations -/

/-- The types the Go grammar allows for an embedded (anonymous) field: a type name, a
qualified type name, an instantiated generic type, or a pointer to one of these. -/
def embeddedType : Expr → Prop
  | Expr.Ident _ => True
  | Expr.SelectorExpr _ _ => True
  | Expr.IndexExpr _ _ => True
  | Expr.StarExpr (Expr.Ident _) => True
  | Expr.StarExpr (Expr.SelectorExpr _ _) => True
  | Expr.StarExpr (Expr.IndexExpr _ _) => True
  | _ => False

instance (e : Expr) : Decidable (embeddedType e) := by
  unfold embeddedType
  split <;> infer_instance

/-- The declaration without its anonymous fields. -/
def removeAnonymous (st : StructType) : StructType :=
  { Fields := st.Fields.filter (fun f => f.Names ≠ []) }

/-- The source of the example of the specification with an embedded field `Base`
in front that carries the tag `gen-copier:"Missing"`. -/
def embeddingSource : StructType :=
  { Fields := [
      { Names := [], Typ := Expr.Ident "Base", Tag := some "`gen-copier:\"Missing\"`" },
      { Names := ["ID"], Typ := Expr.Ident "int",
        Tag := some "`json:\"id\" gen-copier:\"Identifier\"`" },
      { Names := ["Name"], Typ := Expr.Ident "string", Tag := none }] }

/-- The target of the example of the specification with an embedded field `*Base`
between its fields. -/
def embeddingTarget : StructType :=
  { Fields := [
      { Names := ["Identifier"], Typ := Expr.Ident "int", Tag := none },
      { Names := [], Typ := Expr.StarExpr (Expr.Ident "Base"), Tag := none },
      { Names := ["Name"], Typ := Expr.Ident "string", Tag := none }] }

/-- The source `struct { A, B int }`. -/
def multiNameSource : StructType :=
  { Fields := [{ Names := ["A", "B"], Typ := Expr.Ident "int", Tag := none }] }

/-- The target `struct { B int }`. -/
def secondNameTarget : StructType :=
  { Fields := [{ Names := ["B"], Typ := Expr.Ident "int", Tag := none }] }

/-- The source `struct { X [3]int }`. -/
def arraySource : StructType :=
  { Fields := [
      { Names := ["X"], Typ := Expr.ArrayType (some "3") (Expr.Ident "int"), Tag := none }] }

/-- The target `struct { X []int }`. -/
def sliceTarget : StructType :=
  { Fields := [
      { Names := ["X"], Typ := Expr.ArrayType none (Expr.Ident "int"), Tag := none }] }

/-- The declaration `struct { Items []*Item }`. -/
def itemsStruct : StructType :=
  { Fields := [
      { Names := ["Items"], Typ := Expr.ArrayType none (Expr.StarExpr (Expr.Ident "Item")),
        Tag := none }] }

/-- One token `key:"value"` of a tag. -/
def tagToken (kv : String × String) : String :=
  kv.1 ++ ":\"" ++ kv.2 ++ "\""

/-- The given strings, separated by single spaces. -/
def joinSpace : List String → String
  | [] => ""
  | [p] => p
  | p :: q :: rest => p ++ " " ++ joinSpace (q :: rest)

/-- The tag that lists the given key/value pairs as tokens `key:"value"`, separated by
single spaces. -/
def tagOf (tokens : List (String × String)) : String :=
  joinSpace (tokens.map tagToken)

/-- All names declared by a list of field declarations, in declaration order. -/
def declaredNames : List Field → List String
  | [] => []
  | f :: rest => f.Names ++ declaredNames rest

/-- The source `struct { A, B int }` with the tag `gen-copier:"X"` on the
declaration. -/
def sharedTagSource : StructType :=
  { Fields := [
      { Names := ["A", "B"], Typ := Expr.Ident "int", Tag := some "`gen-copier:\"X\"`" }] }

/-- The target `struct { X int }`. -/
def xTarget : StructType :=
  { Fields := [{ Names := ["X"], Typ := Expr.Ident "int", Tag := none }] }

/-- A target that declares the name `N` twice, the matching type last:
`struct { N string; N int }`. -/
def stringThenIntTarget : StructType :=
  { Fields := [
      { Names := ["N"], Typ := Expr.Ident "string", Tag := none },
      { Names := ["N"], Typ := Expr.Ident "int", Tag := none }] }

theorem mapGet_mapSet_self {V : Type} (m : List (String × V)) (k : String) (v : V) :
    mapGet (mapSet m k v) k = some v := by
  induction m with
  | nil => simp [mapSet, mapGet]
  | cons e rest ih =>
    obtain ⟨k', v'⟩ := e
    by_cases h : k' = k
    · simp [mapSet, mapGet, h]
    · simp [mapSet, mapGet, h, ih]

theorem mapGet_mapSet_ne {V : Type} (m : List (String × V)) (k k' : String) (v : V)
    (h : k' ≠ k) : mapGet (mapSet m k v) k' = mapGet m k' := by
  induction m with
  | nil => simp [mapSet, mapGet, Ne.symm h]
  | cons e rest ih =>
    obtain ⟨k₀, v₀⟩ := e
    by_cases h₀ : k₀ = k
    · subst h₀
      simp [mapSet, mapGet, Ne.symm h]
    · by_cases h₁ : k₀ = k'
      · subst h₁
        simp [mapSet, mapGet, h₀]
      · simp [mapSet, mapGet, h₀, h₁, ih]

theorem mem_of_mapGet {V : Type} (m : List (String × V)) (k : String) (v : V)
    (h : mapGet m k = some v) : (k, v) ∈ m := by
  induction m with
  | nil => simp [mapGet] at h
  | cons e rest ih =>
    obtain ⟨k₀, v₀⟩ := e
    by_cases h₀ : k₀ = k
    · simp [mapGet, h₀] at h
      simp [h₀, h]
    · simp [mapGet, h₀] at h
      exact List.mem_cons_of_mem _ (ih h)

theorem keys_mapSet {V : Type} (m : List (String × V)) (k : String) (v : V) (x : String)
    (hx : x ∈ (mapSet m k v).map Prod.fst) : x = k ∨ x ∈ m.map Prod.fst := by
  induction m with
  | nil => simp [mapSet] at hx; exact Or.inl hx
  | cons e rest ih =>
    obtain ⟨k₀, v₀⟩ := e
    by_cases h₀ : k₀ = k
    · simp [mapSet, h₀] at hx
      rcases hx with hx | hx
      · exact Or.inl hx
      · right; simp; right; exact hx
    · simp only [mapSet, h₀, if_false, List.map_cons, List.mem_cons] at hx
      rcases hx with hx | hx
      · right; simp [hx]
      · rcases ih hx with h | h
        · exact Or.inl h
        · right; simp only [List.map_cons, List.mem_cons]; exact Or.inr h

theorem nodup_keys_mapSet {V : Type} (m : List (String × V)) (k : String) (v : V)
    (h : (m.map Prod.fst).Nodup) : ((mapSet m k v).map Prod.fst).Nodup := by
  induction m with
  | nil => simp [mapSet]
  | cons e rest ih =>
    obtain ⟨k₀, v₀⟩ := e
    simp only [List.map_cons, List.nodup_cons] at h
    by_cases h₀ : k₀ = k
    · subst h₀
      simp only [mapSet, if_true, List.map_cons, List.nodup_cons]
      exact h
    · simp only [mapSet, h₀, if_false, List.map_cons, List.nodup_cons]
      refine ⟨?_, ih h.2⟩
      intro hmem
      rcases keys_mapSet rest k v k₀ hmem with h' | h'
      · exact h₀ h'
      · exact h.1 h'

theorem mapGet_of_mem {V : Type} (m : List (String × V)) (k : String) (v : V)
    (hnd : (m.map Prod.fst).Nodup) (h : (k, v) ∈ m) : mapGet m k = some v := by
  induction m with
  | nil => simp at h
  | cons e rest ih =>
    obtain ⟨k₀, v₀⟩ := e
    simp only [List.map_cons, List.nodup_cons] at hnd
    simp only [List.mem_cons, Prod.mk.injEq] at h
    rcases h with ⟨h1, h2⟩ | h
    · simp [mapGet, h1, h2]
    · have hne : k₀ ≠ k := by
        intro heq
        apply hnd.1
        rw [heq]
        exact List.mem_map_of_mem Prod.fst h
      simp [mapGet, hne, ih hnd.2 h]

/-! ## Rendering -/

theorem foldl_append_eq (l : List String) (b : String) :
    l.foldl (fun r s => r ++ s) b = b ++ String.join l := by
  induction l generalizing b with
  | nil => simp [String.join]
  | cons a rest ih =>
    have h1 : String.join (a :: rest) = a ++ String.join rest := by
      simp only [String.join, List.foldl_cons, String.empty_append]
      rw [ih a]
      rfl
    rw [List.foldl_cons, ih, h1, String.append_assoc]

theorem join_cons (a : String) (l : List String) :
    String.join (a :: l) = a ++ String.join l := by
  simp only [String.join, List.foldl_cons, String.empty_append]
  rw [foldl_append_eq]
  rfl

theorem foldl_assignmentLine (entries : List (String × String)) (b : String) :
    entries.foldl (fun b entry => b ++ assignmentLine entry) b =
      b ++ String.join (entries.map assignmentLine) := by
  induction entries generalizing b with
  | nil => simp [String.join]
  | cons e rest ih =>
    simp only [List.foldl_cons, List.map_cons]
    rw [ih, join_cons, String.append_assoc]

theorem contains_copierText (short tn : String) (entries : List (String × String))
    (e : String × String) (he : e ∈ entries) :
    Contains (copierText short tn entries) ("target." ++ e.2 ++ " = source." ++ e.1) := by
  obtain ⟨l₁, l₂, rfl⟩ := List.append_of_mem he
  refine ⟨(headerLine short tn ++ String.join (l₁.map assignmentLine) ++ "    ").data,
    ("\n" ++ String.join (l₂.map assignmentLine) ++ "\x7d\n").data, ?_⟩
  have hj : ∀ (a b : List String), String.join (a ++ b) = String.join a ++ String.join b := by
    intro a b
    induction a with
    | nil => simp [String.join]
    | cons x xs ih => rw [List.cons_append, join_cons, join_cons, ih, String.append_assoc]
  simp only [copierText, List.map_append, List.map_cons, hj, join_cons, assignmentLine,
    String.data_append, List.append_assoc]
  simp

/-! ## Field extraction -/

theorem getFieldInfo_name (field : Field) (info : FieldInfo)
    (h : getFieldInfo field = some info) : info.Name = fieldName field := by
  unfold getFieldInfo at h
  unfold fieldName
  split at h <;> split at h <;> split at h <;> cases h <;> rfl

theorem mem_namedFieldNames (fields : List Field) (field : Field) (hmem : field ∈ fields)
    (hne : fieldName field ≠ "") : fieldName field ∈ namedFieldNames fields := by
  unfold namedFieldNames
  simp only [List.mem_filter, List.mem_map]
  exact ⟨⟨field, hmem, rfl⟩, by simpa using hne⟩

theorem namedFieldNames_cons (field : Field) (rest : List Field) :
    namedFieldNames (field :: rest) =
      if fieldName field ≠ "" then fieldName field :: namedFieldNames rest
      else namedFieldNames rest := by
  unfold namedFieldNames
  by_cases h : fieldName field = "" <;> simp [List.filter_cons, h]

/-! ## The loop over the tagged fields -/

theorem processTagged_cons (tn : String) (tf : List (String × FieldInfo)) (field : Field)
    (rest : List Field) (m : List (String × String)) (info : FieldInfo)
    (h : getFieldInfo field = some info) :
    processTagged tn tf (field :: rest) m =
      if info.Name = "" then processTagged tn tf rest m
      else if directive info ≠ "" then
        match mapGet tf (directive info) with
        | none => some (Except.error (notFoundError (directive info) tn))
        | some targetInfo =>
          if info.Typ ≠ targetInfo.Typ then
            some (Except.error
              (typeMismatchError info.Name info.Typ (directive info) targetInfo.Typ))
          else processTagged tn tf rest (mapSet m info.Name (directive info))
      else processTagged tn tf rest m := by
  simp only [processTagged, h, directive]

/-- What one successful step of the loop does to the table. -/
theorem processTagged_step (tn : String) (tf : List (String × FieldInfo)) (field : Field)
    (rest : List Field) (m m' : List (String × String))
    (h : processTagged tn tf (field :: rest) m = some (Except.ok m')) :
    ∃ info, getFieldInfo field = some info ∧
      ((info.Name = "" ∨ directive info = "") ∧ processTagged tn tf rest m = some (Except.ok m') ∨
       (info.Name ≠ "" ∧ directive info ≠ "" ∧
          (∃ t, mapGet tf (directive info) = some t ∧ info.Typ = t.Typ) ∧
          processTagged tn tf rest (mapSet m info.Name (directive info)) =
            some (Except.ok m'))) := by
  cases hinfo : getFieldInfo field with
  | none => simp [processTagged, hinfo] at h
  | some info =>
    refine ⟨info, rfl, ?_⟩
    rw [processTagged_cons tn tf field rest m info hinfo] at h
    by_cases hn : info.Name = ""
    · left
      simp only [hn, if_true] at h
      exact ⟨Or.inl hn, h⟩
    · by_cases hd : directive info = ""
      · left
        simp [hn, hd] at h
        exact ⟨Or.inr hd, h⟩
      · right
        simp only [hn, if_false, ne_eq, hd, not_false_eq_true, if_true] at h
        cases ht : mapGet tf (directive info) with
        | none => simp [ht] at h
        | some t =>
          simp only [ht] at h
          by_cases hty : info.Typ = t.Typ
          · simp only [hty, not_true_eq_false, if_false] at h
            exact ⟨hn, hd, ⟨t, rfl, hty⟩, h⟩
          · simp [hty] at h

theorem processTagged_get_of_not_mem (tn : String) (tf : List (String × FieldInfo))
    (fields : List Field) (m m' : List (String × String)) (k : String)
    (h : processTagged tn tf fields m = some (Except.ok m'))
    (hk : k ∉ namedFieldNames fields) : mapGet m' k = mapGet m k := by
  induction fields generalizing m with
  | nil =>
    simp [processTagged] at h
    rw [h]
  | cons field rest ih =>
    obtain ⟨info, hinfo, hstep⟩ := processTagged_step tn tf field rest m m' h
    have hname := getFieldInfo_name field info hinfo
    rw [namedFieldNames_cons] at hk
    rcases hstep with ⟨_, hrest⟩ | ⟨hn, _, _, hrest⟩
    · apply ih m hrest
      intro hmem
      apply hk
      split
      · exact List.mem_cons_of_mem _ hmem
      · exact hmem
    · rw [hname] at hn
      simp only [hn, ne_eq, not_false_eq_true, if_true, List.mem_cons, not_or] at hk
      rw [ih _ hrest hk.2]
      apply mapGet_mapSet_ne
      rw [hname]
      exact hk.1

theorem processTagged_get_directive (tn : String) (tf : List (String × FieldInfo))
    (fields : List Field) (m m' : List (String × String))
    (h : processTagged tn tf fields m = some (Except.ok m'))
    (hnd : (namedFieldNames fields).Nodup)
    (field : Field) (info : FieldInfo) (hmem : field ∈ fields)
    (hinfo : getFieldInfo field = some info) (hn : info.Name ≠ "")
    (hd : directive info ≠ "") : mapGet m' info.Name = some (directive info) := by
  induction fields generalizing m with
  | nil => simp at hmem
  | cons f rest ih =>
    obtain ⟨i, hi, hstep⟩ := processTagged_step tn tf f rest m m' h
    rw [namedFieldNames_cons] at hnd
    rcases List.mem_cons.1 hmem with heq | hin
    · subst heq
      rw [hinfo] at hi
      cases hi
      have hname := getFieldInfo_name field info hinfo
      rcases hstep with ⟨hno, _⟩ | ⟨_, _, _, hrest⟩
      · rcases hno with h1 | h1
        · exact absurd h1 hn
        · exact absurd h1 hd
      · rw [hname] at hn
        simp only [hn, ne_eq, not_false_eq_true, if_true, List.nodup_cons] at hnd
        rw [processTagged_get_of_not_mem tn tf rest _ m' info.Name hrest (by rw [hname]; exact hnd.1)]
        exact mapGet_mapSet_self _ _ _
    · have hnd' : (namedFieldNames rest).Nodup := by
        split at hnd
        · exact (List.nodup_cons.1 hnd).2
        · exact hnd
      rcases hstep with ⟨_, hrest⟩ | ⟨_, _, _, hrest⟩
      · exact ih m hrest hnd' hin
      · exact ih _ hrest hnd' hin

/-- Every entry of the table after the loop was there before or comes from a named
field with a valid directive. -/
theorem processTagged_origin (tn : String) (tf : List (String × FieldInfo))
    (fields : List Field) (m m' : List (String × String))
    (h : processTagged tn tf fields m = some (Except.ok m')) (k v : String)
    (hk : mapGet m' k = some v) :
    mapGet m k = some v ∨
      ∃ field ∈ fields, ∃ info t, getFieldInfo field = some info ∧ info.Name = k ∧ k ≠ "" ∧
        directive info = v ∧ v ≠ "" ∧ mapGet tf v = some t ∧ info.Typ = t.Typ := by
  induction fields generalizing m with
  | nil =>
    simp [processTagged] at h
    left
    rw [h]
    exact hk
  | cons f rest ih =>
    obtain ⟨i, hi, hstep⟩ := processTagged_step tn tf f rest m m' h
    rcases hstep with ⟨_, hrest⟩ | ⟨hn, hd, ⟨t, ht, hty⟩, hrest⟩
    · rcases ih m hrest with h1 | ⟨fd, hfd, rest'⟩
      · exact Or.inl h1
      · exact Or.inr ⟨fd, List.mem_cons_of_mem _ hfd, rest'⟩
    · rcases ih _ hrest with h1 | ⟨fd, hfd, rest'⟩
      · by_cases hkk : k = i.Name
        · subst hkk
          rw [mapGet_mapSet_self] at h1
          cases h1
          exact Or.inr ⟨f, List.mem_cons_self _ _, i, t, hi, rfl, hn, rfl, hd, ht, hty⟩
        · rw [mapGet_mapSet_ne _ _ _ _ hkk] at h1
          exact Or.inl h1
      · exact Or.inr ⟨fd, List.mem_cons_of_mem _ hfd, rest'⟩

theorem processTagged_nodup (tn : String) (tf : List (String × FieldInfo))
    (fields : List Field) (m m' : List (String × String))
    (h : processTagged tn tf fields m = some (Except.ok m'))
    (hnd : (m.map Prod.fst).Nodup) : (m'.map Prod.fst).Nodup := by
  induction fields generalizing m with
  | nil =>
    simp [processTagged] at h
    rw [← h]
    exact hnd
  | cons f rest ih =>
    obtain ⟨i, _, hstep⟩ := processTagged_step tn tf f rest m m' h
    rcases hstep with ⟨_, hrest⟩ | ⟨_, _, _, hrest⟩
    · exact ih m hrest hnd
    · exact ih _ hrest (nodup_keys_mapSet _ _ _ hnd)

/-! ## The loop over the untagged fields -/

theorem processUntagged_step (tf : List (String × FieldInfo)) (field : Field)
    (rest : List Field) (m m' : List (String × String))
    (h : processUntagged tf (field :: rest) m = some m') :
    ∃ info, getFieldInfo field = some info ∧
      ((info.Name ≠ "" ∧ mapGet m info.Name = none ∧
          (∃ t, mapGet tf info.Name = some t ∧ info.Typ = t.Typ) ∧
          processUntagged tf rest (mapSet m info.Name info.Name) = some m') ∨
       (¬ (info.Name ≠ "" ∧ mapGet m info.Name = none ∧
          ∃ t, mapGet tf info.Name = some t ∧ info.Typ = t.Typ) ∧
          processUntagged tf rest m = some m')) := by
  cases hinfo : getFieldInfo field with
  | none => simp [processUntagged, hinfo] at h
  | some info =>
    refine ⟨info, rfl, ?_⟩
    simp only [processUntagged, hinfo] at h
    by_cases hn : info.Name = ""
    · right
      simp only [hn, if_true] at h
      exact ⟨fun hc => hc.1 hn, h⟩
    · simp only [hn, if_false] at h
      cases hg : mapGet m info.Name with
      | some v =>
        right
        simp only [hg, Option.isSome_some, if_true] at h
        exact ⟨fun hc => by simp at hc, h⟩
      | none =>
        simp only [hg, Option.isSome_none, Bool.false_eq_true, if_false] at h
        cases ht : mapGet tf info.Name with
        | none =>
          right
          simp only [ht] at h
          exact ⟨fun hc => by simp at hc, h⟩
        | some t =>
          simp only [ht] at h
          by_cases hty : info.Typ = t.Typ
          · left
            simp only [hty, if_true] at h
            exact ⟨hn, rfl, ⟨t, rfl, hty⟩, h⟩
          · right
            simp only [hty, if_false] at h
            refine ⟨fun hc => ?_, h⟩
            obtain ⟨_, _, t', ht', hty'⟩ := hc
            cases ht'
            exact hty hty'

theorem processUntagged_preserves (tf : List (String × FieldInfo)) (fields : List Field)
    (m m' : List (String × String)) (h : processUntagged tf fields m = some m')
    (k v : String) (hk : mapGet m k = some v) : mapGet m' k = some v := by
  induction fields generalizing m with
  | nil =>
    simp [processUntagged] at h
    rw [← h]
    exact hk
  | cons f rest ih =>
    obtain ⟨i, _, hstep⟩ := processUntagged_step tf f rest m m' h
    rcases hstep with ⟨_, hnone, _, hrest⟩ | ⟨_, hrest⟩
    · apply ih _ hrest
      have hne : k ≠ i.Name := by
        intro heq
        rw [heq, hnone] at hk
        cases hk
      rw [mapGet_mapSet_ne _ _ _ _ hne]
      exact hk
    · exact ih m hrest hk

/-- Every entry of the table after the loop was there before or maps a named field
to the target field of the same name and type signature. -/
theorem processUntagged_origin (tf : List (String × FieldInfo)) (fields : List Field)
    (m m' : List (String × String)) (h : processUntagged tf fields m = some m')
    (k v : String) (hk : mapGet m' k = some v) :
    mapGet m k = some v ∨
      (v = k ∧ mapGet m k = none ∧ ∃ field ∈ fields, ∃ info t, getFieldInfo field = some info ∧
        info.Name = k ∧ k ≠ "" ∧ mapGet tf k = some t ∧ info.Typ = t.Typ) := by
  induction fields generalizing m with
  | nil =>
    simp [processUntagged] at h
    left
    rw [h]
    exact hk
  | cons f rest ih =>
    obtain ⟨i, hi, hstep⟩ := processUntagged_step tf f rest m m' h
    rcases hstep with ⟨hn, hnone, ⟨t, ht, hty⟩, hrest⟩ | ⟨_, hrest⟩
    · rcases ih _ hrest with h1 | ⟨hv, hnone', fd, hfd, rest'⟩
      · by_cases hkk : k = i.Name
        · subst hkk
          rw [mapGet_mapSet_self] at h1
          cases h1
          exact Or.inr ⟨rfl, hnone, f, List.mem_cons_self _ _, i, t, hi, rfl, hn, ht, hty⟩
        · rw [mapGet_mapSet_ne _ _ _ _ hkk] at h1
          exact Or.inl h1
      · have hkk : k ≠ i.Name := by
          intro heq
          rw [heq, mapGet_mapSet_self] at hnone'
          cases hnone'
        rw [mapGet_mapSet_ne _ _ _ _ hkk] at hnone'
        exact Or.inr ⟨hv, hnone', fd, List.mem_cons_of_mem _ hfd, rest'⟩
    · rcases ih m hrest with h1 | ⟨hv, hnone', fd, hfd, rest'⟩
      · exact Or.inl h1
      · exact Or.inr ⟨hv, hnone', fd, List.mem_cons_of_mem _ hfd, rest'⟩

/-- A name that is not yet a key and belongs to a field matching the target field of
the same name is mapped to itself by the loop. -/
theorem processUntagged_maps (tf : List (String × FieldInfo)) (fields : List Field)
    (m m' : List (String × String)) (h : processUntagged tf fields m = some m')
    (field : Field) (info t : FieldInfo) (hmem : field ∈ fields)
    (hinfo : getFieldInfo field = some info) (hn : info.Name ≠ "")
    (hnone : mapGet m info.Name = none) (ht : mapGet tf info.Name = some t)
    (hty : info.Typ = t.Typ) : mapGet m' info.Name = some info.Name := by
  induction fields generalizing m with
  | nil => simp at hmem
  | cons f rest ih =>
    obtain ⟨i, hi, hstep⟩ := processUntagged_step tf f rest m m' h
    rcases hstep with ⟨_, _, _, hrest⟩ | ⟨hnot, hrest⟩
    · by_cases hkk : info.Name = i.Name
      · apply processUntagged_preserves tf rest _ m' hrest
        rw [hkk]
        exact mapGet_mapSet_self _ _ _
      · rcases List.mem_cons.1 hmem with heq | hin
        · subst heq
          rw [hinfo] at hi
          cases hi
          exact absurd rfl hkk
        · apply ih _ hrest hin
          rw [mapGet_mapSet_ne _ _ _ _ hkk]
          exact hnone
    · rcases List.mem_cons.1 hmem with heq | hin
      · subst heq
        rw [hinfo] at hi
        cases hi
        exact absurd ⟨hn, hnone, t, ht, hty⟩ hnot
      · exact ih m hrest hin hnone

theorem processUntagged_nodup (tf : List (String × FieldInfo)) (fields : List Field)
    (m m' : List (String × String)) (h : processUntagged tf fields m = some m')
    (hnd : (m.map Prod.fst).Nodup) : (m'.map Prod.fst).Nodup := by
  induction fields generalizing m with
  | nil =>
    simp [processUntagged] at h
    rw [← h]
    exact hnd
  | cons f rest ih =>
    obtain ⟨i, _, hstep⟩ := processUntagged_step tf f rest m m' h
    rcases hstep with ⟨_, _, _, hrest⟩ | ⟨_, hrest⟩
    · exact ih _ hrest (nodup_keys_mapSet _ _ _ hnd)
    · exact ih m hrest hnd

theorem processUntagged_total (tf : List (String × FieldInfo)) (fields : List Field)
    (m : List (String × String)) (hall : ∀ f ∈ fields, ∃ i, getFieldInfo f = some i) :
    ∃ m', processUntagged tf fields m = some m' := by
  induction fields generalizing m with
  | nil => exact ⟨m, rfl⟩
  | cons f rest ih =>
    obtain ⟨i, hi⟩ := hall f (List.mem_cons_self _ _)
    have hall' : ∀ g ∈ rest, ∃ i, getFieldInfo g = some i :=
      fun g hg => hall g (List.mem_cons_of_mem _ hg)
    simp only [processUntagged, hi]
    split
    · exact ih m hall'
    · split
      · exact ih m hall'
      · split
        · split
          · exact ih _ hall'
          · exact ih m hall'
        · exact ih m hall'

/-! ## The target index -/

theorem collectTargetFields_step (field : Field) (rest : List Field)
    (acc tf : List (String × FieldInfo))
    (h : collectTargetFields (field :: rest) acc = some tf) :
    ∃ info, getFieldInfo field = some info ∧
      ((info.Name ≠ "" ∧ collectTargetFields rest (mapSet acc info.Name info) = some tf) ∨
       (info.Name = "" ∧ collectTargetFields rest acc = some tf)) := by
  cases hinfo : getFieldInfo field with
  | none => simp [collectTargetFields, hinfo] at h
  | some info =>
    refine ⟨info, rfl, ?_⟩
    simp only [collectTargetFields, hinfo] at h
    by_cases hn : info.Name = ""
    · right
      simp only [hn, ne_eq, not_true_eq_false, if_false] at h
      exact ⟨hn, h⟩
    · left
      simp only [ne_eq, hn, not_false_eq_true, if_true] at h
      exact ⟨hn, h⟩

/-- Every entry of the index was there before the loop or is the info of a named
field, stored under its name. -/
theorem collectTargetFields_origin (fields : List Field) (acc tf : List (String × FieldInfo))
    (h : collectTargetFields fields acc = some tf) (k : String) (t : FieldInfo)
    (hk : mapGet tf k = some t) :
    mapGet acc k = some t ∨
      ∃ field ∈ fields, getFieldInfo field = some t ∧ t.Name = k ∧ k ≠ "" := by
  induction fields generalizing acc with
  | nil =>
    simp [collectTargetFields] at h
    left
    rw [h]
    exact hk
  | cons f rest ih =>
    obtain ⟨i, hi, hstep⟩ := collectTargetFields_step f rest acc tf h
    rcases hstep with ⟨hn, hrest⟩ | ⟨_, hrest⟩
    · rcases ih _ hrest with h1 | ⟨fd, hfd, rest'⟩
      · by_cases hkk : k = i.Name
        · subst hkk
          rw [mapGet_mapSet_self] at h1
          cases h1
          exact Or.inr ⟨f, List.mem_cons_self _ _, hi, rfl, hn⟩
        · rw [mapGet_mapSet_ne _ _ _ _ hkk] at h1
          exact Or.inl h1
      · exact Or.inr ⟨fd, List.mem_cons_of_mem _ hfd, rest'⟩
    · rcases ih acc hrest with h1 | ⟨fd, hfd, rest'⟩
      · exact Or.inl h1
      · exact Or.inr ⟨fd, List.mem_cons_of_mem _ hfd, rest'⟩

theorem collectTargetFields_get_of_not_mem (fields : List Field)
    (acc tf : List (String × FieldInfo)) (h : collectTargetFields fields acc = some tf)
    (k : String) (hk : k ∉ namedFieldNames fields) : mapGet tf k = mapGet acc k := by
  induction fields generalizing acc with
  | nil =>
    simp [collectTargetFields] at h
    rw [h]
  | cons f rest ih =>
    obtain ⟨i, hi, hstep⟩ := collectTargetFields_step f rest acc tf h
    have hname := getFieldInfo_name f i hi
    rw [namedFieldNames_cons] at hk
    rcases hstep with ⟨hn, hrest⟩ | ⟨hn, hrest⟩
    · rw [hname] at hn
      simp only [hn, ne_eq, not_false_eq_true, if_true, List.mem_cons, not_or] at hk
      rw [ih _ hrest hk.2]
      apply mapGet_mapSet_ne
      rw [hname]
      exact hk.1
    · rw [hname] at hn
      simp only [hn, ne_eq, not_true_eq_false, if_false] at hk
      exact ih acc hrest hk

/-- With pairwise distinct names, the index holds every named field under its name. -/
theorem collectTargetFields_get (fields : List Field) (acc tf : List (String × FieldInfo))
    (h : collectTargetFields fields acc = some tf) (hnd : (namedFieldNames fields).Nodup)
    (field : Field) (info : FieldInfo) (hmem : field ∈ fields)
    (hinfo : getFieldInfo field = some info) (hn : info.Name ≠ "") :
    mapGet tf info.Name = some info := by
  induction fields generalizing acc with
  | nil => simp at hmem
  | cons f rest ih =>
    obtain ⟨i, hi, hstep⟩ := collectTargetFields_step f rest acc tf h
    rw [namedFieldNames_cons] at hnd
    have hnd' : (namedFieldNames rest).Nodup := by
      split at hnd
      · exact (List.nodup_cons.1 hnd).2
      · exact hnd
    rcases List.mem_cons.1 hmem with heq | hin
    · subst heq
      rw [hinfo] at hi
      cases hi
      have hname := getFieldInfo_name field info hinfo
      rcases hstep with ⟨_, hrest⟩ | ⟨hn', _⟩
      · rw [hname] at hn
        simp only [hn, ne_eq, not_false_eq_true, if_true, List.nodup_cons] at hnd
        rw [collectTargetFields_get_of_not_mem rest _ tf hrest info.Name
          (by rw [hname]; exact hnd.1)]
        exact mapGet_mapSet_self _ _ _
      · exact absurd hn' hn
    · rcases hstep with ⟨_, hrest⟩ | ⟨_, hrest⟩
      · exact ih _ hrest hnd' hin
      · exact ih acc hrest hnd' hin

theorem collectTargetFields_total (fields : List Field) (acc : List (String × FieldInfo))
    (hall : ∀ f ∈ fields, ∃ i, getFieldInfo f = some i) :
    ∃ tf, collectTargetFields fields acc = some tf := by
  induction fields generalizing acc with
  | nil => exact ⟨acc, rfl⟩
  | cons f rest ih =>
    obtain ⟨i, hi⟩ := hall f (List.mem_cons_self _ _)
    have hall' : ∀ g ∈ rest, ∃ i, getFieldInfo g = some i :=
      fun g hg => hall g (List.mem_cons_of_mem _ hg)
    simp only [collectTargetFields, hi]
    split
    · exact ih _ hall'
    · exact ih acc hall'

/-! ## The generator as a whole -/

/-- A successful call: the three loops ran to their end and the text renders the
final table in the iteration order. -/
theorem GenerateCopier_ok (ord : RangeOrder) (sn : String) (st : StructType) (tn : String)
    (tt : StructType) (text : String)
    (h : GenerateCopier ord sn st tn tt = some (text, none)) :
    ∃ tf m₁ m₂, collectTargetFields tt.Fields [] = some tf ∧
      processTagged tn tf st.Fields [] = some (Except.ok m₁) ∧
      processUntagged tf st.Fields m₁ = some m₂ ∧
      text = copierText (TrimPrefix sn "packageA.") tn (ord.range m₂) := by
  unfold GenerateCopier at h
  cases htf : collectTargetFields tt.Fields [] with
  | none => simp [htf] at h
  | some tf =>
    simp only [htf] at h
    cases h1 : processTagged tn tf st.Fields [] with
    | none => simp [h1] at h
    | some r =>
      cases r with
      | error e => simp [h1] at h
      | ok m₁ =>
        simp only [h1] at h
        cases h2 : processUntagged tf st.Fields m₁ with
        | none => simp [h2] at h
        | some m₂ =>
          simp only [h2, Option.some.injEq, Prod.mk.injEq, and_true] at h
          refine ⟨tf, m₁, m₂, rfl, h1, h2, ?_⟩
          rw [← h, foldl_assignmentLine]
          rfl

theorem GenerateCopier_of_loops (ord : RangeOrder) (sn : String) (st : StructType)
    (tn : String) (tt : StructType) (tf : List (String × FieldInfo))
    (m₁ m₂ : List (String × String))
    (htf : collectTargetFields tt.Fields [] = some tf)
    (h1 : processTagged tn tf st.Fields [] = some (Except.ok m₁))
    (h2 : processUntagged tf st.Fields m₁ = some m₂) :
    GenerateCopier ord sn st tn tt =
      some (copierText (TrimPrefix sn "packageA.") tn (ord.range m₂), none) := by
  unfold GenerateCopier
  simp only [htf, h1, h2, foldl_assignmentLine]
  rfl

theorem GenerateCopier_of_error (ord : RangeOrder) (sn : String) (st : StructType)
    (tn : String) (tt : StructType) (tf : List (String × FieldInfo)) (err : String)
    (htf : collectTargetFields tt.Fields [] = some tf)
    (h1 : processTagged tn tf st.Fields [] = some (Except.error err)) :
    GenerateCopier ord sn st tn tt = some ("", some err) := by
  unfold GenerateCopier
  simp only [htf, h1]

/-! ## Further facts about the loops -/

theorem mem_range_iff (ord : RangeOrder) (m : List (String × String)) (e : String × String) :
    e ∈ ord.range m ↔ e ∈ m :=
  (ord.perm m).mem_iff

theorem nodup_keys_range (ord : RangeOrder) (m : List (String × String))
    (h : (m.map Prod.fst).Nodup) : ((ord.range m).map Prod.fst).Nodup :=
  (((ord.perm m).map Prod.fst).nodup_iff).2 h

/-- With pairwise distinct names, a named field is determined by its name. -/
theorem field_eq_of_name_eq (fields : List Field) (hnd : (namedFieldNames fields).Nodup)
    (f g : Field) (hf : f ∈ fields) (hg : g ∈ fields) (hne : fieldName f ≠ "")
    (heq : fieldName f = fieldName g) : f = g := by
  induction fields with
  | nil => simp at hf
  | cons a rest ih =>
    rw [namedFieldNames_cons] at hnd
    rcases List.mem_cons.1 hf with h1 | h1 <;> rcases List.mem_cons.1 hg with h2 | h2
    · rw [h1, h2]
    · exfalso
      subst h1
      simp only [hne, ne_eq, not_false_eq_true, if_true, List.nodup_cons] at hnd
      apply hnd.1
      rw [heq]
      exact mem_namedFieldNames rest g h2 (by rw [← heq]; exact hne)
    · exfalso
      subst h2
      have hne' : fieldName g ≠ "" := by rw [← heq]; exact hne
      simp only [hne', ne_eq, not_false_eq_true, if_true, List.nodup_cons] at hnd
      apply hnd.1
      rw [← heq]
      exact mem_namedFieldNames rest f h1 hne
    · apply ih _ h1 h2
      split at hnd
      · exact (List.nodup_cons.1 hnd).2
      · exact hnd

theorem processTagged_append (tn : String) (tf : List (String × FieldInfo))
    (pre rest : List Field) (m : List (String × String)) :
    processTagged tn tf (pre ++ rest) m =
      match processTagged tn tf pre m with
      | some (Except.ok m₁) => processTagged tn tf rest m₁
      | r => r := by
  induction pre generalizing m with
  | nil => simp [processTagged]
  | cons f pre ih =>
    cases hinfo : getFieldInfo f with
    | none => simp [processTagged, hinfo]
    | some i =>
      rw [List.cons_append, processTagged_cons tn tf f (pre ++ rest) m i hinfo,
        processTagged_cons tn tf f pre m i hinfo]
      by_cases hn : i.Name = ""
      · simp only [hn, if_true]
        exact ih m
      · by_cases hd : directive i = ""
        · simp only [hn, hd, if_false, ne_eq, not_true_eq_false]
          exact ih m
        · simp only [hn, if_false, ne_eq, hd, not_false_eq_true, if_true]
          cases ht : mapGet tf (directive i) with
          | none => rfl
          | some t =>
            by_cases hty : i.Typ = t.Typ
            · simp only [hty, not_true_eq_false, if_false]
              exact ih _
            · simp only [hty, not_false_eq_true, if_true]

/-- The loop over the tagged fields runs to its end when every field can be
extracted and has a valid directive or none. -/
theorem processTagged_valid (tn : String) (tf : List (String × FieldInfo))
    (fields : List Field) (m : List (String × String))
    (hall : ∀ f ∈ fields, ∃ i, getFieldInfo f = some i ∧ directiveValid tf i) :
    ∃ m', processTagged tn tf fields m = some (Except.ok m') := by
  induction fields generalizing m with
  | nil => exact ⟨m, rfl⟩
  | cons f rest ih =>
    obtain ⟨i, hi, hv⟩ := hall f (List.mem_cons_self _ _)
    have hall' : ∀ g ∈ rest, ∃ i, getFieldInfo g = some i ∧ directiveValid tf i :=
      fun g hg => hall g (List.mem_cons_of_mem _ hg)
    rw [processTagged_cons tn tf f rest m i hi]
    by_cases hn : i.Name = ""
    · simp only [hn, if_true]
      exact ih m hall'
    · by_cases hd : directive i = ""
      · simp only [hn, hd, if_false, ne_eq, not_true_eq_false]
        exact ih m hall'
      · simp only [hn, if_false, ne_eq, hd, not_false_eq_true, if_true]
        rcases hv with h1 | h1 | h1
        · exact absurd h1 hn
        · exact absurd h1 hd
        · cases ht : mapGet tf (directive i) with
          | none => simp [ht] at h1
          | some t =>
            simp only [ht, Option.map_some', Option.some.injEq] at h1
            simp only [h1, not_true_eq_false, if_false]
            exact ih _ hall'

/-- The final table of a successful call, entry by entry. -/
theorem GenerateCopier_entries (ord : RangeOrder) (sn : String) (st : StructType)
    (tn : String) (tt : StructType) (text : String)
    (h : GenerateCopier ord sn st tn tt = some (text, none)) :
    ∃ tf m₁ m₂, collectTargetFields tt.Fields [] = some tf ∧
      processTagged tn tf st.Fields [] = some (Except.ok m₁) ∧
      processUntagged tf st.Fields m₁ = some m₂ ∧
      text = copierText (TrimPrefix sn "packageA.") tn (ord.range m₂) ∧
      (m₁.map Prod.fst).Nodup ∧ (m₂.map Prod.fst).Nodup ∧
      ∀ e, e ∈ ord.range m₂ ↔ mapGet m₂ e.1 = some e.2 := by
  obtain ⟨tf, m₁, m₂, htf, h1, h2, htext⟩ := GenerateCopier_ok ord sn st tn tt text h
  have hn1 : (m₁.map Prod.fst).Nodup := processTagged_nodup tn tf _ [] m₁ h1 (by simp)
  have hn2 : (m₂.map Prod.fst).Nodup := processUntagged_nodup tf _ m₁ m₂ h2 hn1
  refine ⟨tf, m₁, m₂, htf, h1, h2, htext, hn1, hn2, ?_⟩
  intro e
  rw [mem_range_iff]
  constructor
  · intro he
    exact mapGet_of_mem m₂ e.1 e.2 hn2 he
  · intro he
    exact mem_of_mapGet m₂ e.1 e.2 he

/-! ## Declared names -/

theorem mem_declaredNames (fields : List Field) (f : Field) (n : String) (hf : f ∈ fields)
    (hn : n ∈ f.Names) : n ∈ declaredNames fields := by
  induction fields with
  | nil => simp at hf
  | cons a rest ih =>
    unfold declaredNames
    rcases List.mem_cons.1 hf with heq | hin
    · rw [← heq]
      exact List.mem_append_left _ hn
    · exact List.mem_append_right _ (ih hin)

/-- With pairwise distinct declared names, a name belongs to one field declaration
only. -/
theorem declaration_eq_of_name (fields : List Field) (hnd : (declaredNames fields).Nodup)
    (f g : Field) (n : String) (hf : f ∈ fields) (hg : g ∈ fields) (hnf : n ∈ f.Names)
    (hng : n ∈ g.Names) : f = g := by
  induction fields with
  | nil => simp at hf
  | cons a rest ih =>
    unfold declaredNames at hnd
    have hdisj := (List.nodup_append.1 hnd).2.2
    rcases List.mem_cons.1 hf with h1 | h1 <;> rcases List.mem_cons.1 hg with h2 | h2
    · rw [h1, h2]
    · exfalso
      exact hdisj (h1 ▸ hnf) (mem_declaredNames rest g n h2 hng)
    · exfalso
      exact hdisj (h2 ▸ hng) (mem_declaredNames rest f n h1 hnf)
    · exact ih (List.nodup_append.1 hnd).2.1 h1 h2

theorem fieldName_mem_names (f : Field) (h : fieldName f ≠ "") : fieldName f ∈ f.Names := by
  unfold fieldName at h ⊢
  cases hN : f.Names with
  | nil => rw [hN] at h; exact absurd rfl h
  | cons n rest => exact List.mem_cons_self _ _

/-- On every successful call with pairwise distinct first names, a field declaration
whose tag carries a non-empty directive `T` has the assignment `target.T = source.S`
of its first name `S` in the returned text, whatever the iteration order of the
mapping table. -/
theorem first_name_directive_assignment_in_text (ord : RangeOrder) (sourceTypeName : String)
    (sourceType : StructType) (targetTypeName : String) (targetType : StructType)
    (text : String) (field : Field) (info : FieldInfo)
    (hdistinct : (namedFieldNames sourceType.Fields).Nodup)
    (hok : GenerateCopier ord sourceTypeName sourceType targetTypeName targetType =
      some (text, none))
    (hmem : field ∈ sourceType.Fields) (hinfo : getFieldInfo field = some info)
    (hnamed : info.Name ≠ "") (hdirective : directive info ≠ "") :
    Contains text ("target." ++ directive info ++ " = source." ++ info.Name) := by
  obtain ⟨tf, m₁, m₂, _, h1, h2, htext, _, _, hent⟩ :=
    GenerateCopier_entries ord sourceTypeName sourceType targetTypeName targetType text hok
  have hg1 : mapGet m₁ info.Name = some (directive info) :=
    processTagged_get_directive targetTypeName tf _ [] m₁ h1 hdistinct field info hmem hinfo
      hnamed hdirective
  have hg2 : mapGet m₂ info.Name = some (directive info) :=
    processUntagged_preserves tf _ m₁ m₂ h2 _ _ hg1
  rw [htext]
  exact contains_copierText _ _ _ (info.Name, directive info)
    ((hent (info.Name, directive info)).2 hg2)

theorem range_nil (ord : RangeOrder) : ord.range [] = [] :=
  List.Perm.eq_nil (ord.perm [])

theorem range_singleton (ord : RangeOrder) (e : String × String) : ord.range [e] = [e] :=
  List.perm_singleton.1 (ord.perm [e])

/-- C1, at the failing input: for the source `A, B int` tagged `gen-copier:"X"` and the
target `X int`, the source field names are distinct and the call succeeds; the tag
of the named field `B` carries the directive `X`, and the returned text has
`target.X = source.A` only: the declaration is extracted as the one field `A`. -/
theorem C1_directive_of_second_name_is_lost :
    getFieldInfo
        { Names := ["A", "B"], Typ := Expr.Ident "int", Tag := some "`gen-copier:\"X\"`" } =
      some { Name := "A", Typ := "int", Tag := "gen-copier:\"X\"" } ∧
    directive { Name := "A", Typ := "int", Tag := "gen-copier:\"X\"" } = "X" ∧
    (declaredNames sharedTagSource.Fields).Nodup ∧
    (∀ ord : RangeOrder,
      GenerateCopier ord "S" sharedTagSource "T" xTarget =
        some ("func (source *S) CopyTo(target *T) \x7b\n    target.X = source.A\n\x7d\n", none)) ∧
    ¬ Contains "func (source *S) CopyTo(target *T) \x7b\n    target.X = source.A\n\x7d\n"
      "target.X = source.B" := by
  refine ⟨by decide, by decide, by decide, ?_, by decide⟩
  intro ord
  rw [GenerateCopier_of_loops ord "S" sharedTagSource "T" xTarget
    [("X", { Name := "X", Typ := "int", Tag := "" })]
    [("A", "X")] [("A", "X")] (by decide) (by rfl) (by decide), range_singleton]
  decide

/-- C2, refuted as stated, at two inputs whose field declarations carry one name each.
First: the source `N int; N int` with the tag `gen-copier:"M"` on its second field
against the target `N int; M int`. The first source field `N` has no directive and
the target declares `N` with the same signature, but the name `N` is a key of the
table after the first pass, and the text has `target.M = source.N` only.
Second: the source `N int` against the target `N int; N string`. The target declares
`N int`, but its index holds the last declaration `N string`, and the text has no
assignment. -/
theorem C2_counterexample :
    (twiceTaggedSource.Fields.map getFieldInfo =
        [some { Name := "N", Typ := "int", Tag := "" },
         some { Name := "N", Typ := "int", Tag := "gen-copier:\"M\"" }] ∧
      directive { Name := "N", Typ := "int", Tag := "" } = "" ∧
      twoIntTarget.Fields.map getFieldInfo =
        [some { Name := "N", Typ := "int", Tag := "" },
         some { Name := "M", Typ := "int", Tag := "" }] ∧
      (∀ ord : RangeOrder,
        GenerateCopier ord "S" twiceTaggedSource "T" twoIntTarget =
          some ("func (source *S) CopyTo(target *T) \x7b\n    target.M = source.N\n\x7d\n",
            none)) ∧
      ¬ Contains "func (source *S) CopyTo(target *T) \x7b\n    target.M = source.N\n\x7d\n"
          "target.N = source.N") ∧
    (oneIntSource.Fields.map getFieldInfo = [some { Name := "N", Typ := "int", Tag := "" }] ∧
      directive { Name := "N", Typ := "int", Tag := "" } = "" ∧
      twiceDeclaredTarget.Fields.map getFieldInfo =
        [some { Name := "N", Typ := "int", Tag := "" },
         some { Name := "N", Typ := "string", Tag := "" }] ∧
      (∀ ord : RangeOrder,
        GenerateCopier ord "S" oneIntSource "T" twiceDeclaredTarget =
          some ("func (source *S) CopyTo(target *T) \x7b\n\x7d\n", none)) ∧
      ¬ Contains "func (source *S) CopyTo(target *T) \x7b\n\x7d\n" "target.N = source.N") := by
  refine ⟨⟨by decide, by decide, by decide, ?_, by decide⟩,
    ⟨by decide, by decide, by decide, ?_, by decide⟩⟩
  · intro ord
    rw [GenerateCopier_of_loops ord "S" twiceTaggedSource "T" twoIntTarget
      [("N", { Name := "N", Typ := "int", Tag := "" }),
       ("M", { Name := "M", Typ := "int", Tag := "" })]
      [("N", "M")] [("N", "M")] (by decide) (by rfl) (by decide), range_singleton]
    decide
  · intro ord
    rw [GenerateCopier_of_loops ord "S" oneIntSource "T" twiceDeclaredTarget
      [("N", { Name := "N", Typ := "string", Tag := "" })]
      [] [] (by decide) (by rfl) (by decide), range_nil]
    decide

/-- C2, amended: on every successful call in which each target field declaration
carries at most one name and the named fields of the source, and those of the
target, have pairwise distinct names, a named source field `N` without a directive
for which the target declares a field `N` with an equal type signature is
auto-mapped: the returned text contains `target.N = source.N`. -/
theorem C2_auto_mapped_with_distinct_names (ord : RangeOrder) (sourceTypeName : String)
    (sourceType : StructType) (targetTypeName : String) (targetType : StructType)
    (text : String) (field : Field) (info : FieldInfo) (targetField : Field)
    (targetInfo : FieldInfo)
    (hok : GenerateCopier ord sourceTypeName sourceType targetTypeName targetType =
      some (text, none))
    (hone : ∀ f ∈ targetType.Fields, f.Names.length ≤ 1)
    (hdistinct : (namedFieldNames sourceType.Fields).Nodup)
    (hdistinctTarget : (namedFieldNames targetType.Fields).Nodup)
    (hmem : field ∈ sourceType.Fields) (hinfo : getFieldInfo field = some info)
    (hnamed : info.Name ≠ "") (hnone : directive info = "")
    (htmem : targetField ∈ targetType.Fields)
    (htinfo : getFieldInfo targetField = some targetInfo)
    (hdeclared : info.Name ∈ targetField.Names) (htype : targetInfo.Typ = info.Typ) :
    Contains text ("target." ++ info.Name ++ " = source." ++ info.Name) := by
  obtain ⟨tf, m₁, m₂, htf, h1, h2, htext, _, _, hent⟩ :=
    GenerateCopier_entries ord sourceTypeName sourceType targetTypeName targetType text hok
  -- the target field is known to the generator under the name `N`
  have htname : targetInfo.Name = info.Name := by
    rw [getFieldInfo_name targetField targetInfo htinfo]
    have hlen := hone targetField htmem
    unfold fieldName
    cases hN : targetField.Names with
    | nil => rw [hN] at hdeclared; simp at hdeclared
    | cons a rest =>
      rw [hN] at hdeclared hlen
      cases rest with
      | nil =>
        simp only [List.mem_singleton] at hdeclared
        exact hdeclared.symm
      | cons b rest' => simp at hlen
  have hidx : mapGet tf info.Name = some targetInfo := by
    rw [← htname]
    exact collectTargetFields_get _ [] tf htf hdistinctTarget targetField targetInfo htmem
      htinfo (by rw [htname]; exact hnamed)
  -- no directive puts the name `N` into the table
  have hg1 : mapGet m₁ info.Name = none := by
    cases hv : mapGet m₁ info.Name with
    | none => rfl
    | some v =>
      exfalso
      rcases processTagged_origin targetTypeName tf _ [] m₁ h1 info.Name v hv with
        h0 | ⟨fd, hfd, i, t, hi, hiname, _, hdir, hvne, _, _⟩
      · simp [mapGet] at h0
      · have hfeq : fd = field := by
          apply field_eq_of_name_eq sourceType.Fields hdistinct fd field hfd hmem
          · rw [← getFieldInfo_name fd i hi, hiname]
            exact hnamed
          · rw [← getFieldInfo_name fd i hi, ← getFieldInfo_name field info hinfo, hiname]
        subst hfeq
        rw [hinfo] at hi
        cases hi
        rw [hnone] at hdir
        exact hvne hdir.symm
  have hg2 : mapGet m₂ info.Name = some info.Name :=
    processUntagged_maps tf _ m₁ m₂ h2 field info targetInfo hmem hinfo hnamed hg1 hidx
      htype.symm
  rw [htext]
  exact contains_copierText _ _ _ (info.Name, info.Name) ((hent (info.Name, info.Name)).2 hg2)

/-- Witness of C2: the example of the specification, field `Name`. -/
theorem C2_auto_mapped_with_distinct_names_witness :
    Contains
      "func (source *TestSource) CopyTo(target *packageB.TestTarget) \x7b\n    target.Identifier = source.ID\n    target.Name = source.Name\n\x7d\n"
      "target.Name = source.Name" :=
  C2_auto_mapped_with_distinct_names insertionOrder "packageA.TestSource" specSource
    "packageB.TestTarget" specTarget _
    { Names := ["Name"], Typ := Expr.Ident "string", Tag := none }
    { Name := "Name", Typ := "string", Tag := "" }
    { Names := ["Name"], Typ := Expr.Ident "string", Tag := none }
    { Name := "Name", Typ := "string", Tag := "" }
    (by decide) (by decide) (by decide) (by decide) (by decide) (by decide) (by decide)
    (by decide) (by decide) (by decide) (by decide) (by decide)

/-- C3, refuted as stated: for the source `A string` tagged `gen-copier:"Name"` and
`Name string`, and the target `Name string`, the returned text assigns `target.Name`
twice, under every iteration order. -/
theorem C3_counterexample :
    GenerateCopier insertionOrder "S" aliasSource "T" nameTarget =
      some ("func (source *S) CopyTo(target *T) \x7b\n    target.Name = source.A\n    target.Name = source.Name\n\x7d\n",
        none) ∧
    ∀ ord : RangeOrder, ∃ text,
      GenerateCopier ord "S" aliasSource "T" nameTarget = some (text, none) ∧
      Contains text "target.Name = source.A" ∧ Contains text "target.Name = source.Name" := by
  refine ⟨by decide, ?_⟩
  intro ord
  have hG := GenerateCopier_of_loops ord "S" aliasSource "T" nameTarget
      [("Name", { Name := "Name", Typ := "string", Tag := "" })]
      [("A", "Name")] [("A", "Name"), ("Name", "Name")] (by decide) (by rfl) (by decide)
  refine ⟨_, hG, ?_, ?_⟩
  · exact contains_copierText _ _ _ ("A", "Name")
      ((mem_range_iff ord _ _).2 (by decide))
  · exact contains_copierText _ _ _ ("Name", "Name")
      ((mem_range_iff ord _ _).2 (by decide))

/-- C3, amended: on every successful call the returned text is the function header,
one assignment line per entry of the mapping table the two passes leave, and the
closing line; every entry the directives made in the first pass is still an entry of
that table, and no two entries have the same source field name, so that every source
field name is the right-hand side `source.<S>` of at most one assignment. -/
theorem C3_one_assignment_per_source_field (ord : RangeOrder) (sourceTypeName : String)
    (sourceType : StructType) (targetTypeName : String) (targetType : StructType)
    (text : String)
    (hok : GenerateCopier ord sourceTypeName sourceType targetTypeName targetType =
      some (text, none)) :
    ∃ (targetFields : List (String × FieldInfo)) (tagged table : List (String × String)),
      collectTargetFields targetType.Fields [] = some targetFields ∧
      processTagged targetTypeName targetFields sourceType.Fields [] =
        some (Except.ok tagged) ∧
      processUntagged targetFields sourceType.Fields tagged = some table ∧
      text = copierText (TrimPrefix sourceTypeName "packageA.") targetTypeName
        (ord.range table) ∧
      ((ord.range table).map Prod.fst).Nodup ∧
      (∀ S, ((ord.range table).map Prod.fst).count S ≤ 1) ∧
      (∀ e ∈ tagged, e ∈ ord.range table) ∧
      (∀ e ∈ tagged, ∃ field ∈ sourceType.Fields, ∃ info, getFieldInfo field = some info ∧
        info.Name = e.1 ∧ directive info = e.2 ∧ e.2 ≠ "") := by
  obtain ⟨tf, m₁, m₂, htf, h1, h2, htext, hn1, hn2, hent⟩ :=
    GenerateCopier_entries ord sourceTypeName sourceType targetTypeName targetType text hok
  have hkeys := nodup_keys_range ord m₂ hn2
  refine ⟨tf, m₁, m₂, htf, h1, h2, htext, hkeys, ?_, ?_, ?_⟩
  · intro S
    exact List.nodup_iff_count_le_one.1 hkeys S
  · intro e he
    apply (hent e).2
    exact processUntagged_preserves tf _ m₁ m₂ h2 _ _ (mapGet_of_mem m₁ e.1 e.2 hn1 he)
  · intro e he
    rcases processTagged_origin targetTypeName tf _ [] m₁ h1 e.1 e.2
        (mapGet_of_mem m₁ e.1 e.2 hn1 he) with
      h0 | ⟨fd, hfd, i, t, hi, hiname, _, hd, hvne, _, _⟩
    · simp [mapGet] at h0
    · exact ⟨fd, hfd, i, hi, hiname, hd, hvne⟩

/-- Witness of C3: the declarations of the counterexample; the entry `A ↦ Name` of the
first pass stays, and the source field names `A` and `Name` occur once each on the
right-hand sides. -/
theorem C3_one_assignment_per_source_field_witness :
    ∃ (targetFields : List (String × FieldInfo)) (tagged table : List (String × String)),
      collectTargetFields nameTarget.Fields [] = some targetFields ∧
      processTagged "T" targetFields aliasSource.Fields [] = some (Except.ok tagged) ∧
      processUntagged targetFields aliasSource.Fields tagged = some table ∧
      "func (source *S) CopyTo(target *T) \x7b\n    target.Name = source.A\n    target.Name = source.Name\n\x7d\n" =
        copierText (TrimPrefix "S" "packageA.") "T" (insertionOrder.range table) ∧
      ((insertionOrder.range table).map Prod.fst).Nodup ∧
      (∀ S, ((insertionOrder.range table).map Prod.fst).count S ≤ 1) ∧
      (∀ e ∈ tagged, e ∈ insertionOrder.range table) ∧
      (∀ e ∈ tagged, ∃ field ∈ aliasSource.Fields, ∃ info, getFieldInfo field = some info ∧
        info.Name = e.1 ∧ directive info = e.2 ∧ e.2 ≠ "") :=
  C3_one_assignment_per_source_field insertionOrder "S" aliasSource "T" nameTarget _
    (by decide)

/-! ## Failing directives -/

/-- The first named field whose directive names no field of the index makes the loop
over the tagged fields return the "target field not found" error. -/
theorem processTagged_not_found (tn : String) (tf : List (String × FieldInfo))
    (pre post : List Field) (field : Field) (info : FieldInfo) (m : List (String × String))
    (hpre : ∀ f ∈ pre, ∃ i, getFieldInfo f = some i ∧ directiveValid tf i)
    (hinfo : getFieldInfo field = some info) (hn : info.Name ≠ "")
    (hd : directive info ≠ "") (habsent : mapGet tf (directive info) = none) :
    processTagged tn tf (pre ++ field :: post) m =
      some (Except.error (notFoundError (directive info) tn)) := by
  obtain ⟨m₁, h1⟩ := processTagged_valid tn tf pre m hpre
  rw [processTagged_append, h1]
  simp only
  rw [processTagged_cons tn tf field post m₁ info hinfo]
  simp only [hn, if_false, ne_eq, hd, not_false_eq_true, if_true, habsent]

/-- When the target fields can be extracted, the first source field with a failing
directive decides the error: "target field not found" when the named target field
is missing from the index. No text is returned. -/
theorem GenerateCopier_not_found (ord : RangeOrder) (sn : String) (st : StructType)
    (tn : String) (tt : StructType) (tf : List (String × FieldInfo))
    (pre post : List Field) (field : Field) (info : FieldInfo)
    (hidx : collectTargetFields tt.Fields [] = some tf)
    (hsplit : st.Fields = pre ++ field :: post)
    (hpre : ∀ f ∈ pre, ∃ i, getFieldInfo f = some i ∧ directiveValid tf i)
    (hinfo : getFieldInfo field = some info) (hn : info.Name ≠ "")
    (hd : directive info ≠ "") (habsent : mapGet tf (directive info) = none) :
    GenerateCopier ord sn st tn tt =
      some ("", some ("target field " ++ directive info ++ " not found in type " ++ tn)) := by
  apply GenerateCopier_of_error ord sn st tn tt tf _ hidx
  rw [hsplit]
  exact processTagged_not_found tn tf pre post field info [] hpre hinfo hn hd habsent

/-- When every field of a list can be extracted, the loop over the tagged fields
runs to its end if all directives are valid and returns an error otherwise. -/
theorem processTagged_outcome (tn : String) (tf : List (String × FieldInfo))
    (fields : List Field) (m : List (String × String))
    (hall : ∀ f ∈ fields, ∃ i, getFieldInfo f = some i) :
    (∃ m', processTagged tn tf fields m = some (Except.ok m') ∧
        ∀ f ∈ fields, ∀ i, getFieldInfo f = some i → directiveValid tf i) ∨
      (∃ err, processTagged tn tf fields m = some (Except.error err) ∧
        ∃ f ∈ fields, ∃ i, getFieldInfo f = some i ∧ ¬ directiveValid tf i) := by
  induction fields generalizing m with
  | nil =>
    left
    exact ⟨m, rfl, fun f hf => by simp at hf⟩
  | cons f rest ih =>
    obtain ⟨i, hi⟩ := hall f (List.mem_cons_self _ _)
    have hall' : ∀ g ∈ rest, ∃ i, getFieldInfo g = some i :=
      fun g hg => hall g (List.mem_cons_of_mem _ hg)
    by_cases hv : directiveValid tf i
    · have hcont : ∃ m₁, processTagged tn tf (f :: rest) m = processTagged tn tf rest m₁ := by
        rw [processTagged_cons tn tf f rest m i hi]
        by_cases hn : i.Name = ""
        · exact ⟨m, by simp only [hn, if_true]⟩
        · by_cases hd : directive i = ""
          · exact ⟨m, by simp only [hn, hd, if_false, ne_eq, not_true_eq_false]⟩
          · rcases hv with h1 | h1 | h1
            · exact absurd h1 hn
            · exact absurd h1 hd
            · cases ht : mapGet tf (directive i) with
              | none => simp [ht] at h1
              | some t =>
                simp only [ht, Option.map_some', Option.some.injEq] at h1
                exact ⟨mapSet m i.Name (directive i), by
                  simp only [hn, if_false, ne_eq, hd, not_false_eq_true, if_true, h1,
                    not_true_eq_false]⟩
      obtain ⟨m₁, hm₁⟩ := hcont
      rw [hm₁]
      rcases ih m₁ hall' with ⟨m', hok, hval⟩ | ⟨err, herr, g, hg, rest'⟩
      · left
        refine ⟨m', hok, ?_⟩
        intro g hg j hj
        rcases List.mem_cons.1 hg with heq | hin
        · subst heq
          rw [hi] at hj
          cases hj
          exact hv
        · exact hval g hin j hj
      · right
        exact ⟨err, herr, g, List.mem_cons_of_mem _ hg, rest'⟩
    · right
      have hn : i.Name ≠ "" := fun h => hv (Or.inl h)
      have hd : directive i ≠ "" := fun h => hv (Or.inr (Or.inl h))
      have hbad : ∃ err, processTagged tn tf (f :: rest) m = some (Except.error err) := by
        rw [processTagged_cons tn tf f rest m i hi]
        simp only [hn, if_false, ne_eq, hd, not_false_eq_true, if_true]
        cases ht : mapGet tf (directive i) with
        | none => exact ⟨_, rfl⟩
        | some t =>
          have hty : i.Typ ≠ t.Typ := by
            intro heq
            apply hv
            right; right
            rw [ht, heq]
            rfl
          simp only [hty, not_false_eq_true, if_true]
          exact ⟨_, rfl⟩
      obtain ⟨err, herr⟩ := hbad
      exact ⟨err, herr, f, List.mem_cons_self _ _, i, hi, hv⟩

/-- On declarations whose fields can all be extracted, the call returns an error
exactly when some source field has a failing directive, and generated text with a
nil error otherwise. -/
theorem GenerateCopier_outcome_of_extractable (ord : RangeOrder) (sn : String)
    (st : StructType) (tn : String) (tt : StructType)
    (hsource : ∀ f ∈ st.Fields, ∃ i, getFieldInfo f = some i)
    (htarget : ∀ f ∈ tt.Fields, ∃ i, getFieldInfo f = some i) :
    ∃ tf, collectTargetFields tt.Fields [] = some tf ∧
      (((∃ err, GenerateCopier ord sn st tn tt = some ("", some err)) ∧
          ∃ f ∈ st.Fields, ∃ i, getFieldInfo f = some i ∧ ¬ directiveValid tf i) ∨
       ((∃ text, GenerateCopier ord sn st tn tt = some (text, none)) ∧
          ∀ f ∈ st.Fields, ∀ i, getFieldInfo f = some i → directiveValid tf i)) := by
  obtain ⟨tf, htf⟩ := collectTargetFields_total tt.Fields [] htarget
  refine ⟨tf, htf, ?_⟩
  rcases processTagged_outcome tn tf st.Fields [] hsource with ⟨m₁, h1, hval⟩ | ⟨err, herr, hbad⟩
  · right
    obtain ⟨m₂, h2⟩ := processUntagged_total tf st.Fields m₁ hsource
    exact ⟨⟨_, GenerateCopier_of_loops ord sn st tn tt tf m₁ m₂ htf h1 h2⟩, hval⟩
  · left
    exact ⟨⟨err, GenerateCopier_of_error ord sn st tn tt tf err htf herr⟩, hbad⟩

/-! ## The claims, continued -/

/-- C4, at the failing input: for the source `Age int` tagged `gen-copier:"Years"`
and a target without `Years` that has a field `Tags []*string`, the call does not
return the "target field not found" error: extracting `Tags` panics in
`getFieldInfo` before any source field is looked at. -/
theorem C4_panic_instead_of_not_found :
    getFieldInfo
        { Names := ["Tags"], Typ := Expr.ArrayType none (Expr.StarExpr (Expr.Ident "string")),
          Tag := none } = none ∧
      ∀ ord : RangeOrder,
        GenerateCopier ord "packageA.TestSource" ageSource "packageB.TestTarget"
          pointerSliceTarget = none :=
  ⟨rfl, fun _ => rfl⟩

/-- C5, refuted as stated: for the source `Age int` tagged `gen-copier:"Years"` and a
target without `Years`, the message of the returned error does not contain the
source field name `Age`. -/
theorem C5_counterexample :
    (∀ ord : RangeOrder,
      GenerateCopier ord "packageA.TestSource" ageSource "packageB.TestTarget" nameTarget =
        some ("", some "target field Years not found in type packageB.TestTarget")) ∧
    ¬ Contains "target field Years not found in type packageB.TestTarget" "Age" :=
  ⟨fun _ => rfl, by decide⟩

/-- C5, amended: when the first source field with a failing directive names a field
that is missing from the target index, the call returns no text and the error
`target field <T> not found in type <targetTypeName>`, which carries the missing
target field name and the target type name (and not the source field name). -/
theorem C5_not_found_error_names_field_and_type (ord : RangeOrder) (sourceTypeName : String)
    (sourceType : StructType) (targetTypeName : String) (targetType : StructType)
    (targetFields : List (String × FieldInfo)) (pre post : List Field) (field : Field)
    (info : FieldInfo)
    (hindex : collectTargetFields targetType.Fields [] = some targetFields)
    (hsplit : sourceType.Fields = pre ++ field :: post)
    (hpre : ∀ f ∈ pre, ∃ i, getFieldInfo f = some i ∧ directiveValid targetFields i)
    (hinfo : getFieldInfo field = some info) (hnamed : info.Name ≠ "")
    (hdirective : directive info ≠ "")
    (habsent : mapGet targetFields (directive info) = none) :
    GenerateCopier ord sourceTypeName sourceType targetTypeName targetType =
        some ("", some ("target field " ++ directive info ++ " not found in type " ++
          targetTypeName)) ∧
      Contains ("target field " ++ directive info ++ " not found in type " ++ targetTypeName)
        (directive info) ∧
      Contains ("target field " ++ directive info ++ " not found in type " ++ targetTypeName)
        targetTypeName := by
  refine ⟨?_, ?_, ?_⟩
  · exact GenerateCopier_not_found ord _ _ _ _ targetFields pre post field info hindex hsplit
      hpre hinfo hnamed hdirective habsent
  · refine ⟨"target field ".data, (" not found in type " ++ targetTypeName).data, ?_⟩
    simp only [String.data_append, List.append_assoc]
  · refine ⟨("target field " ++ directive info ++ " not found in type ").data, [], ?_⟩
    simp only [String.data_append, List.append_nil]

/-- Witness of C5: the example of the specification, `Age int` tagged
`gen-copier:"Years"` against a target without `Years`. -/
theorem C5_not_found_error_names_field_and_type_witness :
    GenerateCopier insertionOrder "packageA.TestSource" ageSource "packageB.TestTarget"
        nameTarget =
        some ("", some ("target field " ++ "Years" ++ " not found in type " ++
          "packageB.TestTarget")) ∧
      Contains ("target field " ++ "Years" ++ " not found in type " ++ "packageB.TestTarget")
        "Years" ∧
      Contains ("target field " ++ "Years" ++ " not found in type " ++ "packageB.TestTarget")
        "packageB.TestTarget" :=
  C5_not_found_error_names_field_and_type insertionOrder "packageA.TestSource" ageSource
    "packageB.TestTarget" nameTarget
    [("Name", { Name := "Name", Typ := "string", Tag := "" })] [] []
    { Names := ["Age"], Typ := Expr.Ident "int", Tag := some "`gen-copier:\"Years\"`" }
    { Name := "Age", Typ := "int", Tag := "gen-copier:\"Years\"" }
    (by decide) (by decide) (by decide) (by decide) (by decide) (by decide) (by decide)

/-- C6, at the failing input: for the source `Age int` tagged `gen-copier:"Years"`
and the target `Years string; Tags []*string`, the call does not return the "type
mismatch" error: extracting `Tags` panics in `getFieldInfo` before any source field
is looked at; without the field `Tags` the error is returned. -/
theorem C6_panic_instead_of_type_mismatch :
    (∀ ord : RangeOrder,
      GenerateCopier ord "packageA.TestSource" ageSource "packageB.TestTarget"
        yearsPointerSliceTarget = none) ∧
    (∀ ord : RangeOrder,
      GenerateCopier ord "packageA.TestSource" ageSource "packageB.TestTarget"
        yearsStringTarget =
        some ("", some "type mismatch: source field Age (int) and target field Years (string) have different types")) :=
  ⟨fun _ => rfl, fun _ => rfl⟩

theorem getFieldInfo_unsupported (field : Field) (info : FieldInfo)
    (h : getFieldInfo field = some info) (hshape : unsupportedShape field.Typ) :
    info.Typ = "" := by
  unfold getFieldInfo at h
  cases hT : field.Typ <;> rw [hT] at h hshape <;> simp only [unsupportedShape] at hshape <;>
    simp only [Option.some.injEq] at h <;> rw [← h]

/-- C7, refuted as stated, at two inputs. First: for the source `N int; N string`
without directives and the target `N string`, the first source field `N` has no
directive and a same-named target field of another signature, yet the returned text
assigns `source.N`: the second source field of the name `N` matches. Second: for the
source `N int` and the target `N string; N int`, the source field `N` has a
same-named target field `N string` of another signature, yet the returned text
assigns `source.N`: the target index holds the last declaration `N int`. -/
theorem C7_counterexample :
    (twiceDeclaredSource.Fields.map getFieldInfo =
        [some { Name := "N", Typ := "int", Tag := "" },
         some { Name := "N", Typ := "string", Tag := "" }] ∧
      directive { Name := "N", Typ := "int", Tag := "" } = "" ∧
      directive { Name := "N", Typ := "string", Tag := "" } = "" ∧
      oneStringTarget.Fields.map getFieldInfo =
        [some { Name := "N", Typ := "string", Tag := "" }] ∧
      (∀ ord : RangeOrder,
        GenerateCopier ord "S" twiceDeclaredSource "T" oneStringTarget =
          some ("func (source *S) CopyTo(target *T) \x7b\n    target.N = source.N\n\x7d\n",
            none)) ∧
      Contains "func (source *S) CopyTo(target *T) \x7b\n    target.N = source.N\n\x7d\n"
        "    target.N = source.N\n") ∧
    (oneIntSource.Fields.map getFieldInfo = [some { Name := "N", Typ := "int", Tag := "" }] ∧
      stringThenIntTarget.Fields.map getFieldInfo =
        [some { Name := "N", Typ := "string", Tag := "" },
         some { Name := "N", Typ := "int", Tag := "" }] ∧
      collectTargetFields stringThenIntTarget.Fields [] =
        some [("N", { Name := "N", Typ := "int", Tag := "" })] ∧
      (∀ ord : RangeOrder,
        GenerateCopier ord "S" oneIntSource "T" stringThenIntTarget =
          some ("func (source *S) CopyTo(target *T) \x7b\n    target.N = source.N\n\x7d\n",
            none))) := by
  refine ⟨⟨by decide, by decide, by decide, by decide, ?_, by decide⟩,
    ⟨by decide, by decide, by decide, ?_⟩⟩
  · intro ord
    rw [GenerateCopier_of_loops ord "S" twiceDeclaredSource "T" oneStringTarget
      [("N", { Name := "N", Typ := "string", Tag := "" })]
      [] [("N", "N")] (by decide) (by rfl) (by decide), range_singleton]
    decide
  · intro ord
    rw [GenerateCopier_of_loops ord "S" oneIntSource "T" stringThenIntTarget
      [("N", { Name := "N", Typ := "int", Tag := "" })]
      [] [("N", "N")] (by decide) (by rfl) (by decide), range_singleton]
    decide

/-- C7, amended: when the target index can be built, every source field can be
extracted and has a directive that is valid against the target index or none, and
the names declared by the source are pairwise distinct, a named source field `N`
without a directive for which the target index holds a field of a different type
signature does not make the call fail: the call returns a nil error and the text of
the mapping table the two passes leave, and no entry of that table has the source
field `N`, so that no assignment has the right-hand side `source.N`. -/
theorem C7_implicit_mismatch_is_skipped (ord : RangeOrder) (sourceTypeName : String)
    (sourceType : StructType) (targetTypeName : String) (targetType : StructType)
    (targetFields : List (String × FieldInfo)) (field : Field) (info targetInfo : FieldInfo)
    (N : String)
    (hindex : collectTargetFields targetType.Fields [] = some targetFields)
    (hvalid : ∀ f ∈ sourceType.Fields,
      ∃ i, getFieldInfo f = some i ∧ directiveValid targetFields i)
    (hdistinct : (declaredNames sourceType.Fields).Nodup)
    (hmem : field ∈ sourceType.Fields) (hinfo : getFieldInfo field = some info)
    (hN : N ∈ field.Names) (hnone : directive info = "")
    (hsame : mapGet targetFields N = some targetInfo)
    (hdiff : targetInfo.Typ ≠ info.Typ) :
    ∃ tagged table : List (String × String),
      processTagged targetTypeName targetFields sourceType.Fields [] =
        some (Except.ok tagged) ∧
      processUntagged targetFields sourceType.Fields tagged = some table ∧
      GenerateCopier ord sourceTypeName sourceType targetTypeName targetType =
        some (copierText (TrimPrefix sourceTypeName "packageA.") targetTypeName
          (ord.range table), none) ∧
      ∀ e ∈ ord.range table, e.1 ≠ N := by
  obtain ⟨m₁, h1⟩ := processTagged_valid targetTypeName targetFields sourceType.Fields []
    hvalid
  obtain ⟨m₂, h2⟩ := processUntagged_total targetFields sourceType.Fields m₁
    (fun f hf => (hvalid f hf).imp fun _ h => h.1)
  have hn1 : (m₁.map Prod.fst).Nodup :=
    processTagged_nodup targetTypeName targetFields _ [] m₁ h1 (by simp)
  have hn2 : (m₂.map Prod.fst).Nodup := processUntagged_nodup targetFields _ m₁ m₂ h2 hn1
  refine ⟨m₁, m₂, h1, h2,
    GenerateCopier_of_loops ord _ _ _ _ targetFields m₁ m₂ hindex h1 h2, ?_⟩
  intro e he hname
  have hget : mapGet m₂ N = some e.2 := by
    rw [← hname]
    exact mapGet_of_mem m₂ e.1 e.2 hn2 ((mem_range_iff ord m₂ e).1 he)
  -- a field declaration known under the name `N` is the declaration `field`
  have huniq : ∀ fd ∈ sourceType.Fields, ∀ i, getFieldInfo fd = some i → i.Name = N →
      N ≠ "" → i = info := by
    intro fd hfd i hi hiname hne
    have hfn : fieldName fd = N := by rw [← getFieldInfo_name fd i hi, hiname]
    have hin : N ∈ fd.Names := by
      rw [← hfn]
      exact fieldName_mem_names fd (by rw [hfn]; exact hne)
    have hfeq : fd = field :=
      declaration_eq_of_name sourceType.Fields hdistinct fd field N hfd hmem hin hN
    subst hfeq
    rw [hinfo] at hi
    cases hi
    rfl
  rcases processUntagged_origin targetFields _ m₁ m₂ h2 N e.2 hget with
    hfrom1 | ⟨_, _, fd, hfd, i, t, hi, hiname, hne, ht, hty⟩
  · rcases processTagged_origin targetTypeName targetFields _ [] m₁ h1 N e.2 hfrom1
      with h0 | ⟨fd, hfd, i, t, hi, hiname, hne, hdir, hvne, _, _⟩
    · simp [mapGet] at h0
    · have := huniq fd hfd i hi hiname hne
      subst this
      rw [hnone] at hdir
      exact hvne hdir.symm
  · have := huniq fd hfd i hi hiname hne
    subst this
    rw [hsame] at ht
    cases ht
    exact hdiff hty.symm

/-- Witness of C7: the source `N int; Other bool` against the target
`N string; Other bool`; the table has the one entry `Other ↦ Other`. -/
theorem C7_implicit_mismatch_is_skipped_witness :
    ∃ tagged table : List (String × String),
      processTagged "T"
          [("N", { Name := "N", Typ := "string", Tag := "" }),
           ("Other", { Name := "Other", Typ := "bool", Tag := "" })]
          mismatchSource.Fields [] = some (Except.ok tagged) ∧
      processUntagged
          [("N", { Name := "N", Typ := "string", Tag := "" }),
           ("Other", { Name := "Other", Typ := "bool", Tag := "" })]
          mismatchSource.Fields tagged = some table ∧
      GenerateCopier insertionOrder "S" mismatchSource "T" mismatchTarget =
        some (copierText (TrimPrefix "S" "packageA.") "T" (insertionOrder.range table),
          none) ∧
      ∀ e ∈ insertionOrder.range table, e.1 ≠ "N" :=
  C7_implicit_mismatch_is_skipped insertionOrder "S" mismatchSource "T" mismatchTarget
    [("N", { Name := "N", Typ := "string", Tag := "" }),
     ("Other", { Name := "Other", Typ := "bool", Tag := "" })]
    { Names := ["N"], Typ := Expr.Ident "int", Tag := none }
    { Name := "N", Typ := "int", Tag := "" } { Name := "N", Typ := "string", Tag := "" } "N"
    (by decide) (by decide) (by decide) (by decide) (by decide) (by decide) (by decide)
    (by decide) (by decide)

/-- C8, at the failing input: the source `Name string; Tags []*string` has no
directive at all, and yet the call against the target `Name string` returns neither
generated text nor an error: extracting `Tags` panics in `getFieldInfo`. -/
theorem C8_panic_without_failing_directive :
    (∀ f ∈ pointerSliceSource.Fields, f.Tag = none) ∧
    getFieldInfo
        { Names := ["Tags"], Typ := Expr.ArrayType none (Expr.StarExpr (Expr.Ident "string")),
          Tag := none } = none ∧
    ∀ ord : RangeOrder, GenerateCopier ord "S" pointerSliceSource "T" nameTarget = none :=
  ⟨by decide, rfl, fun _ => rfl⟩

/-- C9, at the failing input: the source field `P *int` and the target field
`P map[string]int` both have an unsupported type shape and get the empty signature;
the comparison of the signatures finds them equal, and the returned text assigns one
field to the other. -/
theorem C9_unsupported_shapes_are_matched :
    getFieldInfo { Names := ["P"], Typ := Expr.StarExpr (Expr.Ident "int"), Tag := none } =
      some { Name := "P", Typ := "", Tag := "" } ∧
    getFieldInfo
        { Names := ["P"], Typ := Expr.MapType (Expr.Ident "string") (Expr.Ident "int"),
          Tag := none } =
      some { Name := "P", Typ := "", Tag := "" } ∧
    (∀ ord : RangeOrder,
      GenerateCopier ord "S" pointerSource "T" mapTarget =
        some ("func (source *S) CopyTo(target *T) \x7b\n    target.P = source.P\n\x7d\n", none)) ∧
    Contains "func (source *S) CopyTo(target *T) \x7b\n    target.P = source.P\n\x7d\n"
      "target.P = source.P" := by
  refine ⟨by decide, by decide, ?_, by decide⟩
  intro ord
  rw [GenerateCopier_of_loops ord "S" pointerSource "T" mapTarget
    [("P", { Name := "P", Typ := "", Tag := "" })]
    [] [("P", "P")] (by decide) (by rfl) (by decide), range_singleton]
  decide

/-- On every successful call each entry `S ↦ T` of the mapping table pairs a named
source field `S` and a named target field `T` whose type signatures are equal as
strings; a field of an unsupported type shape has the empty signature, so it is
never paired with a field whose signature is not empty. -/
theorem assignments_pair_equal_signatures (ord : RangeOrder) (sourceTypeName : String)
    (sourceType : StructType) (targetTypeName : String) (targetType : StructType)
    (text : String)
    (hok : GenerateCopier ord sourceTypeName sourceType targetTypeName targetType =
      some (text, none)) :
    ∃ (targetFields : List (String × FieldInfo)) (tagged table : List (String × String)),
      collectTargetFields targetType.Fields [] = some targetFields ∧
      processTagged targetTypeName targetFields sourceType.Fields [] =
        some (Except.ok tagged) ∧
      processUntagged targetFields sourceType.Fields tagged = some table ∧
      text = copierText (TrimPrefix sourceTypeName "packageA.") targetTypeName
        (ord.range table) ∧
      ∀ e ∈ ord.range table,
        ∃ sourceField ∈ sourceType.Fields, ∃ targetField ∈ targetType.Fields,
        ∃ sourceInfo targetInfo,
          getFieldInfo sourceField = some sourceInfo ∧
          getFieldInfo targetField = some targetInfo ∧
          sourceInfo.Name = e.1 ∧ targetInfo.Name = e.2 ∧
          sourceInfo.Typ = targetInfo.Typ ∧
          (unsupportedShape sourceField.Typ → targetInfo.Typ = "") ∧
          (unsupportedShape targetField.Typ → sourceInfo.Typ = "") := by
  obtain ⟨tf, m₁, m₂, htf, h1, h2, htext, _, _, hent⟩ :=
    GenerateCopier_entries ord sourceTypeName sourceType targetTypeName targetType text hok
  refine ⟨tf, m₁, m₂, htf, h1, h2, htext, ?_⟩
  intro e he
  have hget := (hent e).1 he
  -- the source field of the entry and the entry of the index it was checked against
  have hsrc : ∃ fd ∈ sourceType.Fields, ∃ i t, getFieldInfo fd = some i ∧ i.Name = e.1 ∧
      mapGet tf e.2 = some t ∧ i.Typ = t.Typ := by
    rcases processUntagged_origin tf _ m₁ m₂ h2 e.1 e.2 hget with
      hfrom1 | ⟨hv, _, fd, hfd, i, t, hi, hiname, _, ht, hty⟩
    · rcases processTagged_origin targetTypeName tf _ [] m₁ h1 e.1 e.2 hfrom1 with
        h0 | ⟨fd, hfd, i, t, hi, hiname, _, _, _, ht, hty⟩
      · simp [mapGet] at h0
      · exact ⟨fd, hfd, i, t, hi, hiname, ht, hty⟩
    · exact ⟨fd, hfd, i, t, hi, hiname, by rw [hv]; exact ht, hty⟩
  obtain ⟨fd, hfd, i, t, hi, hiname, ht, hty⟩ := hsrc
  rcases collectTargetFields_origin _ [] tf htf e.2 t ht with h0 | ⟨tfd, htfd, hti, htname, _⟩
  · simp [mapGet] at h0
  · refine ⟨fd, hfd, tfd, htfd, i, t, hi, hti, hiname, htname, hty, ?_, ?_⟩
    · intro hs
      rw [← hty]
      exact getFieldInfo_unsupported fd i hi hs
    · intro hs
      rw [hty]
      exact getFieldInfo_unsupported tfd t hti hs

/-- C10, refuted as stated: for the source and target `A int; B int`, two iteration
orders of the mapping table give two different texts for identical inputs. -/
theorem C10_counterexample :
    GenerateCopier insertionOrder "S" twoFields "T" twoFields =
      some ("func (source *S) CopyTo(target *T) \x7b\n    target.A = source.A\n    target.B = source.B\n\x7d\n",
        none) ∧
    GenerateCopier reverseOrder "S" twoFields "T" twoFields =
      some ("func (source *S) CopyTo(target *T) \x7b\n    target.B = source.B\n    target.A = source.A\n\x7d\n",
        none) ∧
    GenerateCopier insertionOrder "S" twoFields "T" twoFields ≠
      GenerateCopier reverseOrder "S" twoFields "T" twoFields := by
  decide

/-- C10, amended: two calls with identical inputs have the same outcome up to the
order of the assignment lines: both panic, or both return the empty text and the
same error, or both return a text made of the same first line, the same assignment
lines in some order each, and the same closing line. -/
theorem C10_same_outcome_up_to_line_order (ord₁ ord₂ : RangeOrder) (sourceTypeName : String)
    (sourceType : StructType) (targetTypeName : String) (targetType : StructType) :
    (GenerateCopier ord₁ sourceTypeName sourceType targetTypeName targetType = none ∧
      GenerateCopier ord₂ sourceTypeName sourceType targetTypeName targetType = none) ∨
    (∃ err,
      GenerateCopier ord₁ sourceTypeName sourceType targetTypeName targetType =
        some ("", some err) ∧
      GenerateCopier ord₂ sourceTypeName sourceType targetTypeName targetType =
        some ("", some err)) ∨
    (∃ entries₁ entries₂ : List (String × String), entries₁.Perm entries₂ ∧
      GenerateCopier ord₁ sourceTypeName sourceType targetTypeName targetType =
        some (copierText (TrimPrefix sourceTypeName "packageA.") targetTypeName entries₁,
          none) ∧
      GenerateCopier ord₂ sourceTypeName sourceType targetTypeName targetType =
        some (copierText (TrimPrefix sourceTypeName "packageA.") targetTypeName entries₂,
          none)) := by
  cases htf : collectTargetFields targetType.Fields [] with
  | none =>
    left
    simp only [GenerateCopier, htf, and_self]
  | some tf =>
    cases h1 : processTagged targetTypeName tf sourceType.Fields [] with
    | none =>
      left
      simp only [GenerateCopier, htf, h1, and_self]
    | some r =>
      cases r with
      | error err =>
        right; left
        exact ⟨err, GenerateCopier_of_error ord₁ _ _ _ _ tf err htf h1,
          GenerateCopier_of_error ord₂ _ _ _ _ tf err htf h1⟩
      | ok m₁ =>
        cases h2 : processUntagged tf sourceType.Fields m₁ with
        | none =>
          left
          simp only [GenerateCopier, htf, h1, h2, and_self]
        | some m₂ =>
          right; right
          exact ⟨ord₁.range m₂, ord₂.range m₂, (ord₁.perm m₂).trans (ord₂.perm m₂).symm,
            GenerateCopier_of_loops ord₁ _ _ _ _ tf m₁ m₂ htf h1 h2,
            GenerateCopier_of_loops ord₂ _ _ _ _ tf m₁ m₂ htf h1 h2⟩

/-! ## Anonymous fields -/

/-- An anonymous field of an embedded type is extracted with the empty name. -/
theorem getFieldInfo_anonymous (f : Field) (hnames : f.Names = [])
    (htype : embeddedType f.Typ) : ∃ i, getFieldInfo f = some i ∧ i.Name = "" := by
  unfold getFieldInfo
  rw [hnames]
  cases hT : f.Typ with
  | ArrayType len elt => rw [hT] at htype; simp [embeddedType] at htype
  | _ => exact ⟨_, rfl, rfl⟩

theorem collectTargetFields_filter (fields : List Field) (acc : List (String × FieldInfo))
    (h : ∀ f ∈ fields, f.Names = [] → embeddedType f.Typ) :
    collectTargetFields (fields.filter (fun f => f.Names ≠ [])) acc =
      collectTargetFields fields acc := by
  induction fields generalizing acc with
  | nil => rfl
  | cons f rest ih =>
    have h' : ∀ g ∈ rest, g.Names = [] → embeddedType g.Typ :=
      fun g hg => h g (List.mem_cons_of_mem _ hg)
    by_cases hn : f.Names = []
    · obtain ⟨i, hi, hname⟩ := getFieldInfo_anonymous f hn (h f (List.mem_cons_self _ _) hn)
      simp only [List.filter_cons, hn, ne_eq, not_true_eq_false, decide_False,
        Bool.false_eq_true, if_false, collectTargetFields, hi, hname]
      exact ih acc h'
    · simp only [List.filter_cons, hn, ne_eq, not_false_eq_true, decide_True, if_true,
        collectTargetFields]
      cases getFieldInfo f with
      | none => rfl
      | some i =>
        simp only
        split
        · exact ih _ h'
        · exact ih _ h'

theorem processTagged_filter (tn : String) (tf : List (String × FieldInfo))
    (fields : List Field) (m : List (String × String))
    (h : ∀ f ∈ fields, f.Names = [] → embeddedType f.Typ) :
    processTagged tn tf (fields.filter (fun f => f.Names ≠ [])) m =
      processTagged tn tf fields m := by
  induction fields generalizing m with
  | nil => rfl
  | cons f rest ih =>
    have h' : ∀ g ∈ rest, g.Names = [] → embeddedType g.Typ :=
      fun g hg => h g (List.mem_cons_of_mem _ hg)
    by_cases hn : f.Names = []
    · obtain ⟨i, hi, hname⟩ := getFieldInfo_anonymous f hn (h f (List.mem_cons_self _ _) hn)
      rw [processTagged_cons tn tf f rest m i hi]
      simp only [List.filter_cons, hn, ne_eq, not_true_eq_false, decide_False,
        Bool.false_eq_true, if_false, hname, if_true]
      exact ih m h'
    · simp only [List.filter_cons, hn, ne_eq, not_false_eq_true, decide_True, if_true]
      cases hi : getFieldInfo f with
      | none => simp only [processTagged, hi]
      | some i =>
        rw [processTagged_cons tn tf f _ m i hi, processTagged_cons tn tf f rest m i hi,
          ih m h', ih _ h']

theorem processUntagged_filter (tf : List (String × FieldInfo)) (fields : List Field)
    (m : List (String × String))
    (h : ∀ f ∈ fields, f.Names = [] → embeddedType f.Typ) :
    processUntagged tf (fields.filter (fun f => f.Names ≠ [])) m =
      processUntagged tf fields m := by
  induction fields generalizing m with
  | nil => rfl
  | cons f rest ih =>
    have h' : ∀ g ∈ rest, g.Names = [] → embeddedType g.Typ :=
      fun g hg => h g (List.mem_cons_of_mem _ hg)
    by_cases hn : f.Names = []
    · obtain ⟨i, hi, hname⟩ := getFieldInfo_anonymous f hn (h f (List.mem_cons_self _ _) hn)
      simp only [List.filter_cons, hn, ne_eq, not_true_eq_false, decide_False,
        Bool.false_eq_true, if_false, processUntagged, hi, hname, if_true]
      exact ih m h'
    · simp only [List.filter_cons, hn, ne_eq, not_false_eq_true, decide_True, if_true,
        processUntagged]
      cases getFieldInfo f with
      | none => rfl
      | some i => simp only [ih m h', ih _ h']

/-! ## The claims on anonymous fields, rendering and extraction -/

/-- C11: anonymous fields never participate in a mapping, whatever their tags: for
every source and target declaration whose anonymous fields are embedded fields as the
Go grammar has them (a type name, possibly qualified, instantiated or behind a
pointer), the result of `GenerateCopier`, text or error or panic, is its result on
the same declarations with every anonymous field removed from both. -/
theorem C11_anonymous_fields_do_not_participate (ord : RangeOrder) (sourceTypeName : String)
    (sourceType : StructType) (targetTypeName : String) (targetType : StructType)
    (hsource : ∀ f ∈ sourceType.Fields, f.Names = [] → embeddedType f.Typ)
    (htarget : ∀ f ∈ targetType.Fields, f.Names = [] → embeddedType f.Typ) :
    GenerateCopier ord sourceTypeName sourceType targetTypeName targetType =
      GenerateCopier ord sourceTypeName (removeAnonymous sourceType) targetTypeName
        (removeAnonymous targetType) := by
  unfold GenerateCopier removeAnonymous
  simp only [collectTargetFields_filter _ _ htarget]
  cases collectTargetFields targetType.Fields [] with
  | none => rfl
  | some tf =>
    simp only [processTagged_filter _ _ _ _ hsource]
    cases processTagged targetTypeName tf sourceType.Fields [] with
    | none => rfl
    | some r =>
      cases r with
      | error e => rfl
      | ok m₁ => simp only [processUntagged_filter _ _ _ hsource]

/-- Witness of C11: the example of the specification with an embedded source field
that carries the directive `Missing`, naming no target field, and an embedded target
field. -/
theorem C11_anonymous_fields_do_not_participate_witness :
    GenerateCopier insertionOrder "packageA.TestSource" embeddingSource "packageB.TestTarget"
        embeddingTarget =
      GenerateCopier insertionOrder "packageA.TestSource" (removeAnonymous embeddingSource)
        "packageB.TestTarget" (removeAnonymous embeddingTarget) ∧
    removeAnonymous embeddingSource = specSource ∧
    removeAnonymous embeddingTarget = specTarget ∧
    directive { Name := "", Typ := "Base", Tag := "gen-copier:\"Missing\"" } = "Missing" :=
  ⟨C11_anonymous_fields_do_not_participate insertionOrder "packageA.TestSource"
      embeddingSource "packageB.TestTarget" embeddingTarget (by decide) (by decide),
    by decide, by decide, by decide⟩

theorem trimPrefix_append (p rest : String) : TrimPrefix (p ++ rest) p = rest := by
  unfold TrimPrefix HasPrefix
  have h1 : p.data.isPrefixOf (p ++ rest).data = true := by
    rw [String.data_append, List.isPrefixOf_iff_prefix]
    exact List.prefix_append _ _
  rw [if_pos h1]
  simp [String.data_append]

/-- C13: on every successful call the returned text starts with the line
`func (source *R) CopyTo(target *<targetTypeName>) {` and ends with the line `}`,
the lines between them being assignment lines; `R` is `sourceTypeName` without one
leading `packageA.` when it starts with that, and `sourceTypeName` itself otherwise;
the target type name is rendered as given. -/
theorem C13_header_and_closing_line (ord : RangeOrder) (sourceTypeName : String)
    (sourceType : StructType) (targetTypeName : String) (targetType : StructType)
    (text : String)
    (hok : GenerateCopier ord sourceTypeName sourceType targetTypeName targetType =
      some (text, none)) :
    ∃ (R : String) (entries : List (String × String)),
      text = "func (source *" ++ R ++ ") CopyTo(target *" ++ targetTypeName ++ ") \x7b\n" ++
        String.join (entries.map fun e => "    target." ++ e.2 ++ " = source." ++ e.1 ++ "\n")
        ++ "\x7d\n" ∧
      "\n\x7d\n".data <:+ text.data ∧
      (∀ rest, sourceTypeName = "packageA." ++ rest → R = rest) ∧
      (HasPrefix sourceTypeName "packageA." = false → R = sourceTypeName) := by
  obtain ⟨tf, m₁, m₂, _, _, _, htext⟩ :=
    GenerateCopier_ok ord sourceTypeName sourceType targetTypeName targetType text hok
  refine ⟨TrimPrefix sourceTypeName "packageA.", ord.range m₂, ?_, ?_, ?_, ?_⟩
  · rw [htext]
    rfl
  · rw [htext]
    unfold copierText
    induction ord.range m₂ using List.reverseRecOn with
    | nil =>
      refine ⟨("func (source *" ++ TrimPrefix sourceTypeName "packageA." ++
        ") CopyTo(target *" ++ targetTypeName ++ ") \x7b").data, ?_⟩
      simp [headerLine, String.join, String.data_append]
    | append_singleton l e _ =>
      refine ⟨(headerLine (TrimPrefix sourceTypeName "packageA.") targetTypeName ++
        String.join (l.map assignmentLine) ++ "    target." ++ e.2 ++ " = source." ++
        e.1).data, ?_⟩
      have hj : String.join (l.map assignmentLine ++ [assignmentLine e]) =
          String.join (l.map assignmentLine) ++ assignmentLine e := by
        induction l.map assignmentLine with
        | nil => simp [String.join]
        | cons x xs ih => rw [List.cons_append, join_cons, join_cons, ih, String.append_assoc]
      simp [List.map_append, hj, assignmentLine, String.data_append]
  · intro rest hrest
    rw [hrest]
    exact trimPrefix_append _ _
  · intro hno
    unfold TrimPrefix
    rw [hno]
    rfl

/-- Witness of C13: the type names of `test.go`, `packageA.TestSource` and
`packageB.TestTarget`, on the example of the specification. -/
theorem C13_header_and_closing_line_witness :
    ∃ (R : String) (entries : List (String × String)),
      "func (source *TestSource) CopyTo(target *packageB.TestTarget) \x7b\n    target.Identifier = source.ID\n    target.Name = source.Name\n\x7d\n" =
        "func (source *" ++ R ++ ") CopyTo(target *" ++ "packageB.TestTarget" ++ ") \x7b\n" ++
        String.join (entries.map fun e => "    target." ++ e.2 ++ " = source." ++ e.1 ++ "\n")
        ++ "\x7d\n" ∧
      "\n\x7d\n".data <:+
        "func (source *TestSource) CopyTo(target *packageB.TestTarget) \x7b\n    target.Identifier = source.ID\n    target.Name = source.Name\n\x7d\n".data ∧
      (∀ rest, "packageA.TestSource" = "packageA." ++ rest → R = rest) ∧
      (HasPrefix "packageA.TestSource" "packageA." = false → R = "packageA.TestSource") :=
  C13_header_and_closing_line insertionOrder "packageA.TestSource" specSource
    "packageB.TestTarget" specTarget _ (by decide)

/-- C15, at the failing input: for the source `A, B int` and the target `B int`, the
field declaration `A, B int` is extracted as the one field `A`; the name `B` gets no
descriptor and the returned text has no assignment. -/
theorem C15_second_name_is_not_extracted :
    getFieldInfo { Names := ["A", "B"], Typ := Expr.Ident "int", Tag := none } =
      some { Name := "A", Typ := "int", Tag := "" } ∧
    (∀ ord : RangeOrder,
      GenerateCopier ord "S" multiNameSource "T" secondNameTarget =
        some ("func (source *S) CopyTo(target *T) \x7b\n\x7d\n", none)) ∧
    ¬ Contains "func (source *S) CopyTo(target *T) \x7b\n\x7d\n" "target.B = source.B" := by
  refine ⟨by decide, ?_, by decide⟩
  intro ord
  rw [GenerateCopier_of_loops ord "S" multiNameSource "T" secondNameTarget
    [("B", { Name := "B", Typ := "int", Tag := "" })]
    [] [] (by decide) (by rfl) (by decide), range_nil]
  decide

/-- The signature rules of `getFieldInfo` that hold: an identifier, a qualified
identifier and a slice of an identifier are rendered as text, a pointer, map,
generic, channel, function, inline struct or inline interface as the empty string. -/
theorem getFieldInfo_signature (names : List String) (tag : Option String) :
    (∀ T, (getFieldInfo { Names := names, Typ := Expr.Ident T, Tag := tag }).map
        (fun i => i.Typ) = some T) ∧
    (∀ pkg T, (getFieldInfo { Names := names, Typ := Expr.SelectorExpr pkg T, Tag := tag }).map
        (fun i => i.Typ) = some (pkg ++ "." ++ T)) ∧
    (∀ E, (getFieldInfo
        { Names := names, Typ := Expr.ArrayType none (Expr.Ident E), Tag := tag }).map
        (fun i => i.Typ) = some ("[]" ++ E)) ∧
    (∀ e, unsupportedShape e →
      (getFieldInfo { Names := names, Typ := e, Tag := tag }).map (fun i => i.Typ) =
        some "") := by
  refine ⟨fun _ => rfl, fun _ _ => rfl, fun _ => rfl, ?_⟩
  intro e he
  cases e <;> simp only [unsupportedShape] at he <;> rfl

/-- C16, at the failing inputs: an array `[3]int` of an identifier is not a slice of an
identifier and yet gets the signature `[]int`, so that the field `X [3]int` is copied
into the field `X []int`; and a slice whose element is not an identifier gets no
signature at all, the extraction panics. -/
theorem C16_array_gets_slice_signature :
    getFieldInfo
        { Names := ["X"], Typ := Expr.ArrayType (some "3") (Expr.Ident "int"), Tag := none } =
      some { Name := "X", Typ := "[]int", Tag := "" } ∧
    (∀ ord : RangeOrder,
      GenerateCopier ord "S" arraySource "T" sliceTarget =
        some ("func (source *S) CopyTo(target *T) \x7b\n    target.X = source.X\n\x7d\n", none)) ∧
    getFieldInfo
        { Names := ["X"], Typ := Expr.ArrayType none (Expr.StarExpr (Expr.Ident "int")),
          Tag := none } = none := by
  refine ⟨by decide, ?_, by decide⟩
  intro ord
  rw [GenerateCopier_of_loops ord "S" arraySource "T" sliceTarget
    [("X", { Name := "X", Typ := "[]int", Tag := "" })]
    [] [("X", "X")] (by decide) (by rfl) (by decide), range_singleton]
  decide

/-- C17, at the failing inputs: for the field types `[]*T`, `[]pkg.T` and `[][]int`
the extraction does not return a descriptor with an empty signature, it panics, and
so does `GenerateCopier` on a declaration with such a field, on either side. -/
theorem C17_extraction_panics :
    getFieldInfo
        { Names := ["F"], Typ := Expr.ArrayType none (Expr.StarExpr (Expr.Ident "T")),
          Tag := none } = none ∧
    getFieldInfo
        { Names := ["F"], Typ := Expr.ArrayType none (Expr.SelectorExpr "pkg" "T"),
          Tag := none } = none ∧
    getFieldInfo
        { Names := ["F"],
          Typ := Expr.ArrayType none (Expr.ArrayType none (Expr.Ident "int")),
          Tag := none } = none ∧
    (∀ ord : RangeOrder, GenerateCopier ord "S" itemsStruct "T" nameTarget = none) ∧
    (∀ ord : RangeOrder, GenerateCopier ord "S" specSource "T" itemsStruct = none) :=
  ⟨rfl, rfl, rfl, fun _ => rfl, fun _ => rfl⟩

/-- With pairwise distinct names, the info of a named field is determined by its
name. -/
theorem info_eq_of_name_eq (fields : List Field) (hnd : (namedFieldNames fields).Nodup)
    (f g : Field) (i j : FieldInfo) (hf : f ∈ fields) (hg : g ∈ fields)
    (hi : getFieldInfo f = some i) (hj : getFieldInfo g = some j) (hne : i.Name ≠ "")
    (heq : i.Name = j.Name) : f = g ∧ i = j := by
  have hfg : f = g := by
    apply field_eq_of_name_eq fields hnd f g hf hg
    · rw [← getFieldInfo_name f i hi]
      exact hne
    · rw [← getFieldInfo_name f i hi, ← getFieldInfo_name g j hj, heq]
  subst hfg
  rw [hi] at hj
  cases hj
  exact ⟨rfl, rfl⟩

theorem splitChars_ne_nil (sep : Char) (l : List Char) : splitChars sep l ≠ [] := by
  cases l with
  | nil => simp [splitChars]
  | cons c cs =>
    unfold splitChars
    split
    · simp
    · split <;> simp

theorem splitChars_of_not_mem (sep : Char) (l : List Char) (h : sep ∉ l) :
    splitChars sep l = [l] := by
  induction l with
  | nil => rfl
  | cons c cs ih =>
    have hc : c ≠ sep := fun heq => h (heq ▸ List.mem_cons_self _ _)
    have hcs : sep ∉ cs := fun hmem => h (List.mem_cons_of_mem _ hmem)
    simp only [splitChars, hc, if_false, ih hcs]

theorem splitChars_cons (sep c : Char) (cs p : List Char) (ps : List (List Char))
    (hc : c ≠ sep) (h : splitChars sep cs = p :: ps) :
    splitChars sep (c :: cs) = (c :: p) :: ps := by
  simp only [splitChars, hc, if_false, h]

theorem splitChars_append (sep : Char) (p rest : List Char) (h : sep ∉ p) :
    splitChars sep (p ++ sep :: rest) = p :: splitChars sep rest := by
  induction p with
  | nil => simp [splitChars]
  | cons c cs ih =>
    have hc : c ≠ sep := fun heq => h (heq ▸ List.mem_cons_self _ _)
    have hcs : sep ∉ cs := fun hmem => h (List.mem_cons_of_mem _ hmem)
    rw [List.cons_append]
    exact splitChars_cons sep c _ cs _ hc (ih hcs)

theorem split_joinSpace (parts : List String) (hne : parts ≠ [])
    (h : ∀ p ∈ parts, ' ' ∉ p.data) : Split (joinSpace parts) ' ' = parts := by
  induction parts with
  | nil => exact absurd rfl hne
  | cons p rest ih =>
    have hp : ' ' ∉ p.data := h p (List.mem_cons_self _ _)
    cases rest with
    | nil =>
      simp only [joinSpace, Split, splitChars_of_not_mem ' ' p.data hp, List.map_cons,
        List.map_nil]
    | cons q rest' =>
      have ih' := ih (by simp) (fun x hx => h x (List.mem_cons_of_mem _ hx))
      unfold Split at ih' ⊢
      have hdata : (joinSpace (p :: q :: rest')).data =
          p.data ++ ' ' :: (joinSpace (q :: rest')).data := by
        simp [joinSpace, String.data_append]
      rw [hdata, splitChars_append ' ' _ _ hp, List.map_cons, ih']

theorem hasPrefix_empty (p : String) (hp : p ≠ "") : HasPrefix "" p = false := by
  unfold HasPrefix
  cases hd : p.data with
  | nil =>
    exfalso
    apply hp
    exact String.ext hd
  | cons c cs => rfl

theorem key_colon_ne_empty (key : String) : key ++ ":" ≠ "" := by
  intro h
  have := congrArg String.data h
  simp [String.data_append] at this

/-- The early return of `extractTagValue` for the empty tag agrees with what its loop
returns on the empty tag. -/
theorem extractTagValue_eq_parts (tag key : String) :
    extractTagValue tag key = extractFromParts key (Split tag ' ') := by
  unfold extractTagValue
  by_cases h : tag = ""
  · rw [if_pos h, h]
    have : Split "" ' ' = [""] := rfl
    rw [this]
    simp only [extractFromParts, hasPrefix_empty _ (key_colon_ne_empty key),
      Bool.false_eq_true, if_false]
  · rw [if_neg h]

theorem prefix_colon_eq (a b x y : List Char) (ha : ':' ∉ a) (hb : ':' ∉ b)
    (h : (a ++ ':' :: x) <+: (b ++ ':' :: y)) : a = b := by
  induction a generalizing b with
  | nil =>
    cases b with
    | nil => rfl
    | cons d b' =>
      exfalso
      simp only [List.nil_append, List.cons_append, List.cons_prefix_cons] at h
      exact hb (h.1 ▸ List.mem_cons_self _ _)
  | cons c a' ih =>
    cases b with
    | nil =>
      exfalso
      simp only [List.nil_append, List.cons_append, List.cons_prefix_cons] at h
      exact ha (h.1 ▸ List.mem_cons_self _ _)
    | cons d b' =>
      simp only [List.cons_append, List.cons_prefix_cons] at h
      rw [h.1, ih b' (fun hm => ha (List.mem_cons_of_mem _ hm))
        (fun hm => hb (List.mem_cons_of_mem _ hm)) h.2]

theorem tagToken_data (kv : String × String) :
    (tagToken kv).data = kv.1.data ++ ':' :: '"' :: (kv.2.data ++ ['"']) := by
  simp [tagToken, String.data_append]

/-- A token starts with `key:` only if its key is `key`, when neither has a colon. -/
theorem hasPrefix_tagToken (kv : String × String) (key : String) (hk : ':' ∉ kv.1.data)
    (hkey : ':' ∉ key.data) (h : HasPrefix (tagToken kv) (key ++ ":") = true) :
    kv.1 = key := by
  unfold HasPrefix at h
  rw [List.isPrefixOf_iff_prefix, tagToken_data, String.data_append] at h
  have : key.data = kv.1.data := prefix_colon_eq key.data kv.1.data [] _ hkey hk h
  exact (String.ext this).symm

theorem tagToken_no_space (kv : String × String) (hk : ' ' ∉ kv.1.data)
    (hv : ' ' ∉ kv.2.data) : ' ' ∉ (tagToken kv).data := by
  rw [tagToken_data]
  simp only [List.mem_append, List.mem_cons, List.mem_singleton, not_or]
  refine ⟨hk, by decide, by decide, hv, by decide, ?_⟩
  simp

/-- The parts of a tag made of tokens without spaces are its tokens. -/
theorem extractTagValue_tagOf (tokens : List (String × String)) (key : String)
    (hspace : ∀ t ∈ tokens, ' ' ∉ t.1.data ∧ ' ' ∉ t.2.data) :
    extractTagValue (tagOf tokens) key = extractFromParts key (tokens.map tagToken) := by
  cases tokens with
  | nil => rfl
  | cons t rest =>
    rw [extractTagValue_eq_parts, tagOf, split_joinSpace _ (by simp)]
    intro p hp
    obtain ⟨kv, hkv, rfl⟩ := List.mem_map.1 hp
    exact tagToken_no_space kv (hspace kv hkv).1 (hspace kv hkv).2

theorem trim_chars (q : Char → Bool) (x : Char) (v : List Char) (hx : q x = true)
    (hv : ∀ c ∈ v, q c = false) :
    (((x :: (v ++ [x])).dropWhile q).reverse.dropWhile q).reverse = v := by
  have hall : ∀ l : List Char, (∀ c ∈ l, q c = false) → l.dropWhile q = l := by
    intro l hl
    cases l with
    | nil => rfl
    | cons c cs => simp only [List.dropWhile, hl c (List.mem_cons_self _ _)]
  cases v with
  | nil => simp [List.dropWhile, hx]
  | cons c cs =>
    have h1 : (x :: (c :: cs ++ [x])).dropWhile q = c :: cs ++ [x] := by
      simp only [List.dropWhile, hx, List.cons_append, hv c (List.mem_cons_self _ _)]
      rfl
    have h2 : (c :: cs ++ [x]).reverse = x :: (c :: cs).reverse := by
      simp
    have h3 : (x :: (c :: cs).reverse).dropWhile q = (c :: cs).reverse := by
      simp only [List.dropWhile, hx]
      exact hall _ (fun y hy => hv y (List.mem_reverse.1 hy))
    rw [h1, h2, h3, List.reverse_reverse]

theorem trim_quoted (v : String) (hv : '"' ∉ v.data) :
    Trim ("\"" ++ v ++ "\"") "\"" = v := by
  unfold Trim
  apply String.ext
  have hdata : ("\"" ++ v ++ "\"").data = '"' :: (v.data ++ ['"']) := by
    simp [String.data_append]
  rw [hdata]
  apply trim_chars (fun c => "\"".data.contains c) '"' v.data
  · decide
  · intro c hc
    rw [Bool.eq_false_iff]
    intro h
    have hcq : c = '"' := by simpa [List.contains] using h
    exact hv (hcq ▸ hc)

theorem extract_tagToken (kv : String × String) (hv : '"' ∉ kv.2.data) :
    Trim (TrimPrefix (tagToken kv) (kv.1 ++ ":")) "\"" = kv.2 := by
  have h : tagToken kv = (kv.1 ++ ":") ++ ("\"" ++ kv.2 ++ "\"") := by
    apply String.ext
    simp [tagToken, String.data_append]
  rw [h, trimPrefix_append, trim_quoted _ hv]

theorem hasPrefix_tagToken_self (kv : String × String) :
    HasPrefix (tagToken kv) (kv.1 ++ ":") = true := by
  unfold HasPrefix
  rw [List.isPrefixOf_iff_prefix, tagToken_data, String.data_append]
  exact ⟨'"' :: (kv.2.data ++ ['"']), by simp⟩

/-- The loop of `extractTagValue` over tokens with pairwise distinct keys without
colons returns the value of the token with the key asked for. -/
theorem extractFromParts_tokens (tokens : List (String × String)) (key value : String)
    (hcolon : ∀ t ∈ tokens, ':' ∉ t.1.data) (hquote : ∀ t ∈ tokens, '"' ∉ t.2.data)
    (hdistinct : (tokens.map Prod.fst).Nodup) (hmem : (key, value) ∈ tokens) :
    extractFromParts key (tokens.map tagToken) = value := by
  have hkey : ':' ∉ key.data := hcolon (key, value) hmem
  induction tokens with
  | nil => simp at hmem
  | cons t rest ih =>
    simp only [List.map_cons, List.nodup_cons] at hdistinct
    by_cases ht : t.1 = key
    · have hpre : HasPrefix (tagToken t) (key ++ ":") = true := by
        rw [← ht]
        exact hasPrefix_tagToken_self t
      have hval : t.2 = value := by
        rcases List.mem_cons.1 hmem with heq | hin
        · rw [← heq]
        · exfalso
          apply hdistinct.1
          rw [ht]
          exact List.mem_map_of_mem Prod.fst hin
      simp only [List.map_cons, extractFromParts, hpre, if_true]
      rw [← ht, extract_tagToken t (hquote t (List.mem_cons_self _ _)), hval]
    · have hpre : HasPrefix (tagToken t) (key ++ ":") = false := by
        rw [Bool.eq_false_iff]
        intro h
        exact ht (hasPrefix_tagToken t key (hcolon t (List.mem_cons_self _ _)) hkey h)
      simp only [List.map_cons, extractFromParts, hpre, Bool.false_eq_true, if_false]
      apply ih (fun x hx => hcolon x (List.mem_cons_of_mem _ hx))
        (fun x hx => hquote x (List.mem_cons_of_mem _ hx)) hdistinct.2
      rcases List.mem_cons.1 hmem with heq | hin
      · exfalso
        apply ht
        rw [← heq]
      · exact hin

/-- C14: for a tag that lists tokens `key:"value"` separated by single spaces, with
pairwise distinct keys that contain no space and no colon and values that contain
no space and no quote, `extractTagValue` returns for a key of the list the value of
its token, without the surrounding quotes. -/
theorem C14_extract_returns_value (tokens : List (String × String)) (key value : String)
    (hkeys : ∀ t ∈ tokens, ' ' ∉ t.1.data ∧ ':' ∉ t.1.data)
    (hvalues : ∀ t ∈ tokens, ' ' ∉ t.2.data ∧ '"' ∉ t.2.data)
    (hdistinct : (tokens.map Prod.fst).Nodup) (hmem : (key, value) ∈ tokens) :
    extractTagValue (tagOf tokens) key = value := by
  rw [extractTagValue_tagOf tokens key (fun t ht => ⟨(hkeys t ht).1, (hvalues t ht).1⟩)]
  exact extractFromParts_tokens tokens key value (fun t ht => (hkeys t ht).2)
    (fun t ht => (hvalues t ht).2) hdistinct hmem

/-- Witness of C14: the tag of the example of the specification,
`json:"id" gen-copier:"Identifier"`. -/
theorem C14_extract_returns_value_witness :
    tagOf [("json", "id"), ("gen-copier", "Identifier")] =
      "json:\"id\" gen-copier:\"Identifier\"" ∧
    extractTagValue (tagOf [("json", "id"), ("gen-copier", "Identifier")]) "gen-copier" =
      "Identifier" :=
  ⟨by decide,
    C14_extract_returns_value [("json", "id"), ("gen-copier", "Identifier")] "gen-copier"
      "Identifier" (by decide) (by decide) (by decide) (by decide)⟩

/-- C19, refuted as stated: the tag `json:"a gen-copier:b"` is one token with the key
`json`, which has no space, colon or quote; the key `gen-copier` is not the key of
any token, and `extractTagValue` returns `b` for it: the tag is split at the space
inside the value. -/
theorem C19_counterexample :
    tagOf [("json", "a gen-copier:b")] = "json:\"a gen-copier:b\"" ∧
    Split "json:\"a gen-copier:b\"" ' ' = ["json:\"a", "gen-copier:b\""] ∧
    extractTagValue "json:\"a gen-copier:b\"" "gen-copier" = "b" := by
  decide

/-- C19, amended: for a tag that lists tokens `key:"value"` separated by single
spaces, whose keys contain no space and no colon and whose values contain no space,
and for a key without a colon that is not the key of any token, `extractTagValue`
returns the empty string; so it does for the empty tag. -/
theorem C19_extract_absent_key (tokens : List (String × String)) (key : String)
    (hkeys : ∀ t ∈ tokens, ' ' ∉ t.1.data ∧ ':' ∉ t.1.data)
    (hvalues : ∀ t ∈ tokens, ' ' ∉ t.2.data) (hkey : ':' ∉ key.data)
    (habsent : ∀ t ∈ tokens, t.1 ≠ key) :
    extractTagValue (tagOf tokens) key = "" ∧ extractTagValue "" key = "" := by
  refine ⟨?_, rfl⟩
  rw [extractTagValue_tagOf tokens key (fun t ht => ⟨(hkeys t ht).1, hvalues t ht⟩)]
  induction tokens with
  | nil => rfl
  | cons t rest ih =>
    have hpre : HasPrefix (tagToken t) (key ++ ":") = false := by
      rw [Bool.eq_false_iff]
      intro h
      exact habsent t (List.mem_cons_self _ _)
        (hasPrefix_tagToken t key (hkeys t (List.mem_cons_self _ _)).2 hkey h)
    simp only [List.map_cons, extractFromParts, hpre, Bool.false_eq_true, if_false]
    exact ih (fun x hx => hkeys x (List.mem_cons_of_mem _ hx))
      (fun x hx => hvalues x (List.mem_cons_of_mem _ hx))
      (fun x hx => habsent x (List.mem_cons_of_mem _ hx))

/-- Witness of C19: the keys `xgen-copier` and `gen-copier2` are not taken for the
key `gen-copier`. -/
theorem C19_extract_absent_key_witness :
    tagOf [("xgen-copier", "A"), ("gen-copier2", "A")] =
      "xgen-copier:\"A\" gen-copier2:\"A\"" ∧
    extractTagValue (tagOf [("xgen-copier", "A"), ("gen-copier2", "A")]) "gen-copier" = "" ∧
    extractTagValue "" "gen-copier" = "" :=
  ⟨by decide,
    C19_extract_absent_key [("xgen-copier", "A"), ("gen-copier2", "A")] "gen-copier"
      (by decide) (by decide) (by decide) (by decide)⟩

end CopierGenerate
